import Mathlib

/-!
# composinator: dependency-ordered creation engine (`cmd/up.go`)

A shallow embedding of the functions of `cmd/up.go` and theorems about them.

Modelling conventions

* A Go `string` is a `Str` (a list of characters).  The code only compares
  strings, concatenates them, searches for the ASCII substrings
  `"reference"` / `"already exist"`, trims ASCII prefixes and suffixes and
  splits on `":"`.
* A Go `map[string]T` is a `GoMap T`: an association list with `get`
  (first match) and `set` (overwrite or append).  Where the code ranges over
  a map, the order of the visit is an explicit argument, because Go leaves
  it unspecified and changes it from one `range` statement to the next.
* A value of type `interface{}` is a `Value`.
* The remote API (norman `clientbase`) is not part of the repository; it is
  a parameter `Env D` acting on an abstract directory state `D`.  Every call
  is appended to a trace.
-/

namespace Composinator

/-! ## Strings -/

/-- Go `string`. -/
abbrev Str := List Char

/-- A Go string literal. -/
def lit (s : String) : Str := s.toList

/-- Go `strings.HasPrefix(s, p)`. -/
def HasPrefix (s p : Str) : Bool := p.isPrefixOf s

/-- Go `strings.HasSuffix(s, p)`. -/
def HasSuffix (s p : Str) : Bool := p.reverse.isPrefixOf s.reverse

/-- Go `strings.Contains(s, sub)`. -/
def Contains : Str → Str → Bool
  | [], sub => sub.isPrefixOf []
  | c :: cs, sub => sub.isPrefixOf (c :: cs) || Contains cs sub

/-- Go `strings.TrimPrefix(s, p)`. -/
def TrimPrefix (s p : Str) : Str := if HasPrefix s p then s.drop p.length else s

/-- Go `strings.TrimSuffix(s, p)`. -/
def TrimSuffix (s p : Str) : Str :=
  if HasSuffix s p then s.take (s.length - p.length) else s

/-- Go `strings.Split(s, sep)` for a one-character separator: the pieces of
`s` between the occurrences of `sep` (one piece more than occurrences). -/
def Split : Str → Char → List Str
  | [], _ => [[]]
  | c :: cs, sep =>
    if c = sep then [] :: Split cs sep
    else
      match Split cs sep with
      | [] => [[c]]
      | p :: ps => (c :: p) :: ps

/-! ## Maps -/

/-- Go `map[string]β`. -/
abbrev GoMap (β : Type) := List (Str × β)

/-- Go `v, ok := m[k]`. -/
def GoMap.get {β : Type} : GoMap β → Str → Option β
  | [], _ => none
  | (k', v) :: m, k => if k' = k then some v else GoMap.get m k

/-- Go `m[k] = v`. -/
def GoMap.set {β : Type} : GoMap β → Str → β → GoMap β
  | [], k, v => [(k, v)]
  | (k', v') :: m, k, v => if k' = k then (k', v) :: m else (k', v') :: GoMap.set m k v

/-- Go `_, ok := m[k]`. -/
def GoMap.has {β : Type} (m : GoMap β) (k : Str) : Bool := (m.get k).isSome

/-- Go `delete(m, k)`. -/
def GoMap.delete {β : Type} (m : GoMap β) (k : Str) : GoMap β :=
  m.filter (fun e => !decide (e.1 = k))

/-- The keys of a map. -/
def GoMap.keys {β : Type} (m : GoMap β) : List Str := m.map Prod.fst

/-! ## Schemas (`norman/types`) -/

/-- The part of `types.Field` the code reads: the raw type string. -/
structure Field where
  Typ : Str
  deriving DecidableEq, Repr, Inhabited

/-- The part of `types.Schema` the code reads: `ResourceFields`. -/
structure Schema where
  ResourceFields : GoMap Field
  deriving DecidableEq, Repr, Inhabited

/-! ## The topological orderer -/

/-- The package variable `namespacedSchema`. -/
def namespacedSchema : GoMap Bool := [(lit "project", true)]

/-- Source `isNamespaceIDRef`. -/
def isNamespaceIDRef (ref schemaType : Str) : Bool :=
  if ref = (lit "namespace") && (namespacedSchema.get schemaType).getD false then true
  else false

/-- Source `getReference`. -/
def getReference (name : Str) : Str :=
  let name := TrimSuffix (TrimPrefix name (lit "array[")) (lit "]")
  let r := TrimSuffix (TrimPrefix name (lit "reference[")) (lit "]")
  TrimPrefix (TrimPrefix (TrimPrefix r (lit "/v3/schemas/")) (lit "/v3/clusters/schemas/"))
    (lit "/v3/projects/schemas/")

/-- The local variables `inserted` and `result` of `SortSchema`. -/
structure SortState where
  inserted : GoMap Bool
  result : List Str
  deriving DecidableEq, Repr

/-- Go `inserted[k]` on a `map[string]bool`: `false` when the key is absent. -/
def isInserted (inserted : GoMap Bool) (k : Str) : Bool := (inserted.get k).getD false

/-- The body of the loop over `schema.ResourceFields` in `SortSchema`: the new
value of `ready` after the field `fieldName`. -/
def readyStep (inserted : GoMap Bool) (k : Str) (ready : Bool) (f : Str × Field) : Bool :=
  if Contains f.2.Typ (lit "reference") then
    let reference := getReference f.2.Typ
    if isNamespaceIDRef reference k then ready
    else if !isInserted inserted reference && decide (f.1 ≠ (lit "creatorId"))
        && decide (k ≠ reference) then false
    else ready
  else ready

/-- The value of `ready` after the loop over the fields, visited in the order
`fields`. -/
def computeReady (inserted : GoMap Bool) (k : Str) (fields : List (Str × Field)) : Bool :=
  fields.foldl (readyStep inserted k) true

/-- The body of the loop `for k, schema := range schemas` in `SortSchema`. -/
def sortVisit (st : SortState) (e : Str × Schema) : SortState :=
  if isInserted st.inserted e.1 then st
  else if computeReady st.inserted e.1 e.2.ResourceFields then
    { inserted := st.inserted.set e.1 true, result := st.result ++ [e.1] }
  else st

/-- One pass `for k, schema := range schemas` visiting the entries in the
order `order`. -/
def sortPass (st : SortState) (order : List (Str × Schema)) : SortState :=
  order.foldl sortVisit st

/-- The state of `SortSchema` after `n` iterations of the outer loop;
`iter i schemas` is the order in which pass `i` ranges over the map. -/
def sortPasses (iter : Nat → GoMap Schema → List (Str × Schema)) (schemas : GoMap Schema) :
    Nat → SortState
  | 0 => { inserted := [], result := [] }
  | n + 1 => sortPass (sortPasses iter schemas n) (iter n schemas)

/-- Source `SortSchema`: 100 passes over the map. -/
def SortSchema (iter : Nat → GoMap Schema → List (Str × Schema)) (schemas : GoMap Schema) :
    List Str :=
  (sortPasses iter schemas 100).result

/-- A `range` oracle is admissible for a map when each pass visits every entry
of the map exactly once. -/
def ValidIter (iter : Nat → GoMap Schema → List (Str × Schema)) (schemas : GoMap Schema) : Prop :=
  ∀ i, (iter i schemas).Perm schemas

/-- A well-formed Go map has no repeated key. -/
def WellFormed {β : Type} (m : GoMap β) : Prop := m.keys.Nodup

instance {β : Type} (m : GoMap β) : Decidable (WellFormed m) :=
  inferInstanceAs (Decidable m.keys.Nodup)

/-- The map is ranged in the order of the association list in every pass. -/
def iterId : Nat → GoMap Schema → List (Str × Schema) := fun _ m => m

/-- The map is ranged in the reverse order in every pass. -/
def iterRev : Nat → GoMap Schema → List (Str × Schema) := fun _ m => m.reverse

/-- The claim's relation "kind `k` references kind `r` through the non-exempt
reference field `f`": the type of `f` contains `reference`, the field is not
`creatorId`, `r = getReference(type)` differs from `k`, and it is not the case
that `r` is `namespace` with `k` namespace-scoped. -/
def NonExemptRef (k : Str) (f : Str × Field) (r : Str) : Prop :=
  Contains f.2.Typ (lit "reference") = true ∧ f.1 ≠ (lit "creatorId") ∧
    r = getReference f.2.Typ ∧ r ≠ k ∧
    ¬ (r = (lit "namespace") ∧ (namespacedSchema.get k).getD false = true)

/-- An edge `k -> r` of the non-exempt reference graph of a schema map. -/
def Edge (schemas : GoMap Schema) (k r : Str) : Prop :=
  ∃ s f, (k, s) ∈ schemas ∧ f ∈ s.ResourceFields ∧ NonExemptRef k f r

/-- The non-exempt reference graph has no cycle. -/
def Acyclic (schemas : GoMap Schema) : Prop :=
  ∀ k, ¬ Relation.TransGen (Edge schemas) k k

/-- Every non-exempt reference targets a kind of the map. -/
def Closed (schemas : GoMap Schema) : Prop :=
  ∀ k r, Edge schemas k r → r ∈ schemas.keys

/-- The graph is acyclic and no chain of non-exempt references has more than
`n` kinds: the kinds can be put in layers `0 .. n-1`, every reference going to
a strictly lower layer. -/
def Layered (schemas : GoMap Schema) (n : Nat) : Prop :=
  ∃ depth : Str → Nat, (∀ k r, Edge schemas k r → depth r < depth k) ∧
    ∀ k ∈ schemas.keys, depth k < n

/-- Every occurrence of `r` in `l` comes strictly before every occurrence of
`k`, and both occur. -/
def OccursBefore (r k : Str) (l : List Str) : Prop :=
  r ∈ l ∧ k ∈ l ∧ ∀ i j : Nat, l[i]? = some r → l[j]? = some k → i < j

/-- The field `f` keeps kind `k` from being placed while `inserted` is the set
of placed kinds. -/
def blocks (inserted : GoMap Bool) (k : Str) (f : Str × Field) : Bool :=
  Contains f.2.Typ (lit "reference") && !isNamespaceIDRef (getReference f.2.Typ) k &&
    !isInserted inserted (getReference f.2.Typ) && decide (f.1 ≠ (lit "creatorId")) &&
    decide (k ≠ getReference f.2.Typ)

/-- Kind `r` was placed before kind `k` in `l`. -/
def PlacedBefore (r k : Str) (l : List Str) : Prop :=
  ∃ pre post, l = pre ++ k :: post ∧ r ∈ pre

/-- The loop invariant of `SortSchema` for the schema map `schemas`. -/
structure SortInv (schemas : GoMap Schema) (st : SortState) : Prop where
  ins_iff : ∀ k, isInserted st.inserted k = true ↔ k ∈ st.result
  nodup : st.result.Nodup
  keys : ∀ k ∈ st.result, k ∈ schemas.keys
  deps : ∀ k ∈ st.result, ∀ r, Edge schemas k r → PlacedBefore r k st.result

/-- The Boolean form of `NonExemptRef k f (getReference f.2.Typ)`. -/
def nonExemptB (k : Str) (f : Str × Field) : Bool :=
  Contains f.2.Typ (lit "reference") && decide (f.1 ≠ lit "creatorId") &&
    decide (getReference f.2.Typ ≠ k) && !isNamespaceIDRef (getReference f.2.Typ) k

/-- The edges of the non-exempt reference graph, as a list. -/
def edges (schemas : GoMap Schema) : List (Str × Str) :=
  schemas.flatMap fun e =>
    (e.2.ResourceFields.filter (nonExemptB e.1)).map fun f => (e.1, getReference f.2.Typ)

/-- A catalog of three kinds: `cluster`, `project` (in a cluster, and with the
exempt reference to its namespace) and `namespace` (in a project). -/
def exCatalog : GoMap Schema :=
  [ (lit "namespace", ⟨[ (lit "projectId", ⟨lit "reference[/v3/schemas/project]"⟩),
                         (lit "creatorId", ⟨lit "reference[/v3/schemas/user]"⟩) ]⟩),
    (lit "project", ⟨[ (lit "clusterId", ⟨lit "reference[/v3/schemas/cluster]"⟩),
                       (lit "namespaceId", ⟨lit "reference[/v3/clusters/schemas/namespace]"⟩),
                       (lit "creatorId", ⟨lit "reference[/v3/schemas/user]"⟩) ]⟩),
    (lit "cluster", ⟨[ (lit "creatorId", ⟨lit "reference[/v3/schemas/user]"⟩),
                       (lit "description", ⟨lit "string"⟩) ]⟩) ]

/-- The layer of each kind of `exCatalog`. -/
def exCatalogDepth (k : Str) : Nat :=
  if k = lit "cluster" then 0 else if k = lit "project" then 1 else 2

/-- A schema map whose only kind references a kind that is not in the map
(`GetSchemaMap` keeps only the kinds that carry `creatorId`). -/
def exDangling : GoMap Schema :=
  [ (lit "workload", ⟨[ (lit "namespaceId", ⟨lit "reference[/v3/clusters/schemas/namespace]"⟩),
                        (lit "creatorId", ⟨lit "reference[/v3/schemas/user]"⟩) ]⟩) ]

/-- The layer of each kind of `exDangling`. -/
def exDanglingDepth (k : Str) : Nat := if k = lit "workload" then 1 else 0

/-- The name of the `i`-th kind of the example chain: two characters. -/
def chainName (i : Nat) : Str := [Char.ofNat (65 + i / 11), Char.ofNat (97 + i % 11)]

/-- The type of a field that references the `i`-th kind of the chain. -/
def chainType (i : Nat) : Str := lit "reference[/v3/schemas/" ++ chainName i ++ lit "]"

/-- The `i`-th kind of the chain: kind `0` has no field, kind `i + 1` has one
field, which references kind `i`. -/
def chainEntry : Nat → Str × Schema
  | 0 => (chainName 0, ⟨[]⟩)
  | i + 1 => (chainName (i + 1), ⟨[(lit "parentId", ⟨chainType i⟩)]⟩)

/-- A schema map of 101 kinds, each but the first referencing the one before. -/
def exChain : GoMap Schema := (List.range 101).map chainEntry

/-- The kinds `m - 1, ..., 0` of the chain, in this order. -/
def chainDesc : Nat → List (Str × Schema)
  | 0 => []
  | m + 1 => chainEntry m :: chainDesc m

/-- The state of `SortSchema` in which the kinds `0, ..., n - 1` of the chain
are placed, in this order. -/
def chainState (n : Nat) : SortState :=
  { inserted := (List.range n).map fun i => (chainName i, true)
    result := (List.range n).map chainName }

/-- The position in the chain of the kind named `k`. -/
def chainDepth (k : Str) : Nat :=
  match k with
  | [a, b] => (a.toNat - 65) * 11 + (b.toNat - 97)
  | _ => 0

/-! ## Dynamic values, outcomes and the remote API -/

/-- A Go value of type `interface{}`: what `encoding/json` decodes (`null`,
`bool`, number, `string`, `[]interface{}`, `map[string]interface{}`), and a
`map[string]string` (`strMap none` is the nil map), which `replaceReference`
can store in a record. -/
inductive Value where
  | null
  | bool (b : Bool)
  | num (n : Int)
  | str (s : Str)
  | arr (xs : List Value)
  | obj (m : List (Str × Value))
  | strMap (m : Option (List (Str × Str)))
  deriving Repr

mutual
def Value.decEq : (a b : Value) → Decidable (a = b)
  | .null, .null => isTrue rfl
  | .bool a, .bool b => if h : a = b then isTrue (by rw [h]) else isFalse (by intro e; cases e; exact h rfl)
  | .num a, .num b => if h : a = b then isTrue (by rw [h]) else isFalse (by intro e; cases e; exact h rfl)
  | .str a, .str b => if h : a = b then isTrue (by rw [h]) else isFalse (by intro e; cases e; exact h rfl)
  | .strMap a, .strMap b => if h : a = b then isTrue (by rw [h]) else isFalse (by intro e; cases e; exact h rfl)
  | .arr a, .arr b =>
    match Value.decEqList a b with
    | isTrue h => isTrue (by rw [h])
    | isFalse h => isFalse (by intro e; cases e; exact h rfl)
  | .obj a, .obj b =>
    match Value.decEqObj a b with
    | isTrue h => isTrue (by rw [h])
    | isFalse h => isFalse (by intro e; cases e; exact h rfl)
  | .null, .bool _ => isFalse (by intro e; cases e)
  | .null, .num _ => isFalse (by intro e; cases e)
  | .null, .str _ => isFalse (by intro e; cases e)
  | .null, .arr _ => isFalse (by intro e; cases e)
  | .null, .obj _ => isFalse (by intro e; cases e)
  | .null, .strMap _ => isFalse (by intro e; cases e)
  | .bool _, .null => isFalse (by intro e; cases e)
  | .bool _, .num _ => isFalse (by intro e; cases e)
  | .bool _, .str _ => isFalse (by intro e; cases e)
  | .bool _, .arr _ => isFalse (by intro e; cases e)
  | .bool _, .obj _ => isFalse (by intro e; cases e)
  | .bool _, .strMap _ => isFalse (by intro e; cases e)
  | .num _, .null => isFalse (by intro e; cases e)
  | .num _, .bool _ => isFalse (by intro e; cases e)
  | .num _, .str _ => isFalse (by intro e; cases e)
  | .num _, .arr _ => isFalse (by intro e; cases e)
  | .num _, .obj _ => isFalse (by intro e; cases e)
  | .num _, .strMap _ => isFalse (by intro e; cases e)
  | .str _, .null => isFalse (by intro e; cases e)
  | .str _, .bool _ => isFalse (by intro e; cases e)
  | .str _, .num _ => isFalse (by intro e; cases e)
  | .str _, .arr _ => isFalse (by intro e; cases e)
  | .str _, .obj _ => isFalse (by intro e; cases e)
  | .str _, .strMap _ => isFalse (by intro e; cases e)
  | .arr _, .null => isFalse (by intro e; cases e)
  | .arr _, .bool _ => isFalse (by intro e; cases e)
  | .arr _, .num _ => isFalse (by intro e; cases e)
  | .arr _, .str _ => isFalse (by intro e; cases e)
  | .arr _, .obj _ => isFalse (by intro e; cases e)
  | .arr _, .strMap _ => isFalse (by intro e; cases e)
  | .obj _, .null => isFalse (by intro e; cases e)
  | .obj _, .bool _ => isFalse (by intro e; cases e)
  | .obj _, .num _ => isFalse (by intro e; cases e)
  | .obj _, .str _ => isFalse (by intro e; cases e)
  | .obj _, .arr _ => isFalse (by intro e; cases e)
  | .obj _, .strMap _ => isFalse (by intro e; cases e)
  | .strMap _, .null => isFalse (by intro e; cases e)
  | .strMap _, .bool _ => isFalse (by intro e; cases e)
  | .strMap _, .num _ => isFalse (by intro e; cases e)
  | .strMap _, .str _ => isFalse (by intro e; cases e)
  | .strMap _, .arr _ => isFalse (by intro e; cases e)
  | .strMap _, .obj _ => isFalse (by intro e; cases e)
def Value.decEqList : (a b : List Value) → Decidable (a = b)
  | [], [] => isTrue rfl
  | [], _ :: _ => isFalse (by intro e; cases e)
  | _ :: _, [] => isFalse (by intro e; cases e)
  | x :: xs, y :: ys =>
    match Value.decEq x y, Value.decEqList xs ys with
    | isTrue h1, isTrue h2 => isTrue (by rw [h1, h2])
    | isFalse h1, _ => isFalse (by intro e; cases e; exact h1 rfl)
    | _, isFalse h2 => isFalse (by intro e; cases e; exact h2 rfl)
def Value.decEqObj : (a b : List (Str × Value)) → Decidable (a = b)
  | [], [] => isTrue rfl
  | [], _ :: _ => isFalse (by intro e; cases e)
  | _ :: _, [] => isFalse (by intro e; cases e)
  | (k, x) :: xs, (l, y) :: ys =>
    if hk : k = l then
      match Value.decEq x y, Value.decEqObj xs ys with
      | isTrue h1, isTrue h2 => isTrue (by rw [hk, h1, h2])
      | isFalse h1, _ => isFalse (by intro e; cases e; exact h1 rfl)
      | _, isFalse h2 => isFalse (by intro e; cases e; exact h2 rfl)
    else isFalse (by intro e; cases e; exact hk rfl)
end

instance : DecidableEq Value := Value.decEq

instance : Inhabited Value := ⟨Value.null⟩

/-- The outcome of a Go function that returns an `error`: a normal return
(`ok`), a returned error with its message (`err`), or a runtime panic
(`crash`: nil pointer dereference, failed type assertion). -/
inductive Res (α : Type) where
  | ok (a : α)
  | err (msg : Str)
  | crash (msg : Str)
  deriving DecidableEq, Repr

/-- The three clients of a `ClientSet`; a `*clientbase.APIBaseClient` that is
not nil points at one of them. -/
inductive ClientRef where
  | mgmt
  | cluster
  | project
  deriving DecidableEq, Repr

/-- The part of `clientbase.APIBaseClient` the code reads and writes:
`Opts.URL` and `Types`. -/
structure APIBaseClient where
  URL : Str
  Types : GoMap Schema
  deriving DecidableEq, Repr

/-- Source `ClientSet`.  The fields are pointers: a write to a client's URL
is seen by every later use of the clientset. -/
structure ClientSet where
  mClient : APIBaseClient
  cClient : APIBaseClient
  pClient : APIBaseClient
  deriving DecidableEq, Repr

/-- The client a reference points at. -/
def ClientSet.client (cs : ClientSet) : ClientRef → APIBaseClient
  | .mgmt => cs.mClient
  | .cluster => cs.cClient
  | .project => cs.pClient

/-- The part of `managementClient.Cluster` that `fillInReferenceMap` reads. -/
structure Cluster where
  Name : Str
  deriving DecidableEq, Repr

/-- A call to the remote API, with the client it is made on and the base URL
of that client at the time of the call. -/
inductive Call where
  | list (client : ClientRef) (url schemaType : Str)
  | create (client : ClientRef) (url schemaType : Str) (data : GoMap Value)
  | byID (client : ClientRef) (url schemaType id : Str)
  | wait (client : ClientRef) (url id schemaType : Str)
  deriving DecidableEq, Repr

/-- What the repository does not contain: the remote API behind
`clientbase.APIBaseClient` (`List`, `Create`, `ByID`, acting on a directory
state `D`; an error is its message), the readiness checker registered in
`WaitCondition` (`WaitCluster` polls in real time; only its outcome is
modelled), `fmt`'s `%v` for a value that is not a string, and the orders in
which Go ranges over the schema map and over the fields of a schema. -/
structure Env (D : Type) where
  list : D → ClientRef → Str → Str → D × Except Str (GoMap Value)
  create : D → ClientRef → Str → Str → GoMap Value → D × Except Str (GoMap Value)
  byID : D → ClientRef → Str → Str → Str → D × Except Str Cluster
  wait : D → ClientRef → Str → Str → Str → D × Option Str
  sprint : Value → Str
  rangeSchemas : Nat → GoMap Schema → List (Str × Schema)
  rangeFields : Str → Str → GoMap Field → List (Str × Field)

/-- The state a run works on: the clientset (whose URLs `GetClient` rewrites),
`referenceMap`, the directory and the calls made so far. -/
structure World (D : Type) where
  clientset : ClientSet
  referenceMap : GoMap (GoMap Str)
  dir : D
  trace : List Call
  deriving DecidableEq

/-- Go `client.List(schemaType, &types.ListOpts{}, &respObj)` on a pointer
that may be nil. -/
def callList {D : Type} (env : Env D) (client : Option ClientRef) (schemaType : Str)
    (w : World D) : World D × Res (GoMap Value) :=
  match client with
  | none => (w, .crash (lit "nil pointer dereference"))
  | some cl =>
    let url := (w.clientset.client cl).URL
    let r := env.list w.dir cl url schemaType
    let w' := { w with dir := r.1, trace := w.trace ++ [Call.list cl url schemaType] }
    match r.2 with
    | .ok respObj => (w', .ok respObj)
    | .error e => (w', .err e)

/-- Go `client.Create(schemaType, data, &respObj)` on a pointer that may be nil. -/
def callCreate {D : Type} (env : Env D) (client : Option ClientRef) (schemaType : Str)
    (data : GoMap Value) (w : World D) : World D × Res (GoMap Value) :=
  match client with
  | none => (w, .crash (lit "nil pointer dereference"))
  | some cl =>
    let url := (w.clientset.client cl).URL
    let r := env.create w.dir cl url schemaType data
    let w' := { w with dir := r.1, trace := w.trace ++ [Call.create cl url schemaType data] }
    match r.2 with
    | .ok respObj => (w', .ok respObj)
    | .error e => (w', .err e)

/-- Go `client.ByID("cluster", id, &cluster)`. -/
def callByID {D : Type} (env : Env D) (cl : ClientRef) (schemaType id : Str)
    (w : World D) : World D × Res Cluster :=
  let url := (w.clientset.client cl).URL
  let r := env.byID w.dir cl url schemaType id
  let w' := { w with dir := r.1, trace := w.trace ++ [Call.byID cl url schemaType id] }
  match r.2 with
  | .ok cluster => (w', .ok cluster)
  | .error e => (w', .err e)

/-- The call `f(baseClient, id, schemaKey)` of a registered readiness checker. -/
def callWait {D : Type} (env : Env D) (client : Option ClientRef) (id schemaType : Str)
    (w : World D) : World D × Res Unit :=
  match client with
  | none => (w, .crash (lit "nil pointer dereference"))
  | some cl =>
    let url := (w.clientset.client cl).URL
    let r := env.wait w.dir cl url id schemaType
    let w' := { w with dir := r.1, trace := w.trace ++ [Call.wait cl url id schemaType] }
    match r.2 with
    | none => (w', .ok ())
    | some e => (w', .err e)

/-! ## `getValue`, `GetClient`, `fillInReferenceMap` -/

/-- Source `getValue`. -/
def getValue (data : GoMap Value) (key : Str) : Str :=
  match data.get key with
  | some (.str s) => s
  | _ => []

/-- Source `GetClient`: the clientset after the call (the URL of a selected
scoped client has the scope identifier appended) and the returned pointer
(`none` is nil) or error. -/
def GetClient (schemaType : Str) (clientset : ClientSet) (clusterId projectId : Str) :
    ClientSet × Res (Option ClientRef) :=
  let baseClient0 : Option ClientRef :=
    if clientset.mClient.Types.has schemaType then some ClientRef.mgmt else none
  if clientset.pClient.Types.has schemaType ∧ projectId = [] then
    (clientset, .err (lit "projectId is required for " ++ schemaType))
  else
    let cs1 : ClientSet :=
      if clientset.pClient.Types.has schemaType then
        { clientset with
          pClient := { clientset.pClient with
                       URL := clientset.pClient.URL ++ lit "/" ++ projectId } }
      else clientset
    let baseClient1 : Option ClientRef :=
      if clientset.pClient.Types.has schemaType then some ClientRef.project else baseClient0
    if cs1.cClient.Types.has schemaType then
      if clusterId = [] then
        (cs1, .err (lit "clusterId is required for " ++ schemaType))
      else
        ({ cs1 with cClient := { cs1.cClient with URL := cs1.cClient.URL ++ lit "/" ++ clusterId } },
          .ok (some ClientRef.cluster))
    else (cs1, .ok baseClient1)

/-- Go `referenceMap[kind][key] = id` (the inner map exists). -/
def setRef (referenceMap : GoMap (GoMap Str)) (kind key id : Str) : GoMap (GoMap Str) :=
  referenceMap.set kind (((referenceMap.get kind).getD []).set key id)

/-- Go `v, ok := referenceMap[kind][key]`; a missing inner map is the nil map. -/
def getRef (referenceMap : GoMap (GoMap Str)) (kind key : Str) : Option Str :=
  match referenceMap.get kind with
  | none => none
  | some m => m.get key

/-- The body of the loop over `collections` in `fillInReferenceMap`. -/
def fillEntry {D : Type} (env : Env D) (cl : ClientRef) (schemaKey : Str) (w : World D)
    (obj : Value) : World D × Res Unit :=
  match obj with
  | .obj objMap =>
    let projectId := getValue objMap (lit "projectId")
    let store (w : World D) (clusterNamePrefix : Str) : World D × Res Unit :=
      let name := clusterNamePrefix ++ getValue objMap (lit "name")
      let id := getValue objMap (lit "id")
      if name ≠ [] ∧ id ≠ [] then
        if projectId ≠ [] then
          ({ w with referenceMap :=
              setRef w.referenceMap schemaKey (projectId ++ lit ":" ++ name) id }, .ok ())
        else ({ w with referenceMap := setRef w.referenceMap schemaKey name id }, .ok ())
      else (w, .ok ())
    if schemaKey = lit "project" then
      match Split (getValue objMap (lit "id")) ':' with
      | [cId, _] =>
        match callByID env cl (lit "cluster") cId w with
        | (w1, .ok cluster) => store w1 (cluster.Name ++ lit ":")
        | (w1, .err e) => (w1, .err e)
        | (w1, .crash e) => (w1, .crash e)
      | _ => (w, .err (lit "Invalid format on projectId"))
    else store w []
  | _ => (w, .ok ())

/-- The loop over `collections` in `fillInReferenceMap`. -/
def fillEntries {D : Type} (env : Env D) (cl : ClientRef) (schemaKey : Str) :
    List Value → World D → World D × Res Unit
  | [], w => (w, .ok ())
  | obj :: rest, w =>
    match fillEntry env cl schemaKey w obj with
    | (w1, .ok _) => fillEntries env cl schemaKey rest w1
    | (w1, .err e) => (w1, .err e)
    | (w1, .crash e) => (w1, .crash e)

/-- Source `fillInReferenceMap`. -/
def fillInReferenceMap {D : Type} (env : Env D) (client : Option ClientRef) (schemaKey : Str)
    (w : World D) : World D × Res Unit :=
  if schemaKey = lit "namespace" then (w, .ok ())
  else
    let w0 := { w with referenceMap := w.referenceMap.set schemaKey [] }
    match callList env client schemaKey w0 with
    | (w1, .ok respObj) =>
      match client, respObj.get (lit "data") with
      | some cl, some (.arr collections) => fillEntries env cl schemaKey collections w1
      | _, _ => (w1, .ok ())
    | (w1, .err e) => (w1, .err e)
    | (w1, .crash e) => (w1, .crash e)

/-! ## `parseClusterAndProjectId`, `replaceReference` -/

/-- Source `parseClusterAndProjectId`. -/
def parseClusterAndProjectId (data : GoMap Value) (referenceMap : GoMap (GoMap Str)) :
    Res (Str × Str) :=
  let projectName := getValue data (lit "projectId")
  if projectName ≠ [] then
    match Split projectName ':' with
    | [clusterName, _] =>
      match getRef referenceMap (lit "cluster") clusterName with
      | none => .err (lit "failed to find clusterId reference")
      | some cId =>
        match getRef referenceMap (lit "project") projectName with
        | none => .err (lit "failed to find projectId reference")
        | some pId => .ok (cId, pId)
    | _ => .ok ([], [])
  else .ok ([], [])

/-- Go `fmt.Sprintf("%v", v)`: a string prints as itself. -/
def formatV {D : Type} (env : Env D) : Option Value → Str
  | some (.str s) => s
  | some v => env.sprint v
  | none => env.sprint Value.null

/-- The branch of `replaceReference` taken when `referenceMap` has no entry
for the referenced kind: the caches of `project`, `cluster` and of the
referenced kind are filled from the directory. -/
def fillMissing {D : Type} (env : Env D) (reference : Str) (data : GoMap Value)
    (w : World D) : World D × Res Unit :=
  let r1 : World D × Res Unit :=
    if !w.referenceMap.has (lit "project") then
      fillInReferenceMap env (some ClientRef.mgmt) (lit "project") w
    else (w, .ok ())
  match r1 with
  | (w1, .err e) => (w1, .err e)
  | (w1, .crash e) => (w1, .crash e)
  | (w1, .ok _) =>
    let r2 : World D × Res Unit :=
      if !w1.referenceMap.has (lit "cluster") then
        fillInReferenceMap env (some ClientRef.mgmt) (lit "cluster") w1
      else (w1, .ok ())
    match r2 with
    | (w2, .err e) => (w2, .err e)
    | (w2, .crash e) => (w2, .crash e)
    | (w2, .ok _) =>
      let ids : Res (Str × Str) :=
        if w2.clientset.pClient.Types.has reference then
          parseClusterAndProjectId data w2.referenceMap
        else .ok ([], [])
      match ids with
      | .err e => (w2, .err e)
      | .crash e => (w2, .crash e)
      | .ok (clusterId, projectId) =>
        match GetClient reference w2.clientset clusterId projectId with
        | (cs, .err e) => ({ w2 with clientset := cs }, .err e)
        | (cs, .crash e) => ({ w2 with clientset := cs }, .crash e)
        | (cs, .ok client) =>
          fillInReferenceMap env client reference { w2 with clientset := cs }

/-- The body of the loop over `schema.ResourceFields` in `replaceReference`,
for the field `f.1` with descriptor `f.2`, on the record `data`. -/
def replaceReferenceField {D : Type} (env : Env D) (schemaType : Str) (f : Str × Field)
    (data : GoMap Value) (w : World D) : (GoMap Value × World D) × Res Unit :=
  let key := f.1
  if Contains f.2.Typ (lit "reference") then
    let reference := getReference f.2.Typ
    if reference = lit "namespace" ∨ reference = lit "persistVolume" then ((data, w), .ok ())
    else if !data.has key then ((data, w), .ok ())
    else
      let r : World D × Res Unit :=
        if !w.referenceMap.has reference then fillMissing env reference data w
        else (w, .ok ())
      match r with
      | (w1, .err e) => ((data, w1), .err e)
      | (w1, .crash e) => ((data, w1), .crash e)
      | (w1, .ok _) =>
        if key = lit "projectId" then
          match parseClusterAndProjectId data w1.referenceMap with
          | .err e => ((data, w1), .err e)
          | .crash e => ((data, w1), .crash e)
          | .ok (cId, pId) =>
            (((data.set (lit "projectId") (.str pId)).set (lit "clusterId") (.str cId), w1),
              .ok ())
        else if w1.clientset.pClient.Types.has schemaType then
          match parseClusterAndProjectId data w1.referenceMap with
          | .err e => ((data, w1), .err e)
          | .crash e => ((data, w1), .crash e)
          | .ok (cId, pId) =>
            ((data.set key (.strMap (w1.referenceMap.get
                (cId ++ lit ":" ++ pId ++ lit ":" ++ formatV env (data.get key)))), w1), .ok ())
        else
          match data.get key with
          | some (.str v) =>
            ((data.set key (.str ((getRef w1.referenceMap reference v).getD [])), w1), .ok ())
          | _ => ((data, w1), .crash (lit "interface conversion: interface {} is not string"))
  else ((data, w), .ok ())

/-- Source `replaceReference`; `fields` is `schema.ResourceFields` in the
order in which this call ranges over it. -/
def replaceReference {D : Type} (env : Env D) (schemaType : Str) :
    List (Str × Field) → GoMap Value → World D → (GoMap Value × World D) × Res Unit
  | [], data, w => ((data, w), .ok ())
  | f :: rest, data, w =>
    match replaceReferenceField env schemaType f data w with
    | ((data1, w1), .ok _) => replaceReference env schemaType rest data1 w1
    | (s, .err e) => (s, .err e)
    | (s, .crash e) => (s, .crash e)

/-! ## `GetSchemaMap`, `CreateResourcesWithReferences` -/

/-- One of the three loops of `GetSchemaMap`: the kinds of `types` that carry
`creatorId` are stored in `schemas`. -/
def addCreatable (schemas types : GoMap Schema) : GoMap Schema :=
  types.foldl
    (fun acc e => if e.2.ResourceFields.has (lit "creatorId") then acc.set e.1 e.2 else acc)
    schemas

/-- Source `GetSchemaMap`. -/
def GetSchemaMap (clientset : ClientSet) : GoMap Schema :=
  addCreatable
    (addCreatable (addCreatable [] clientset.mClient.Types) clientset.pClient.Types)
    clientset.cClient.Types

/-- The keys of the package variable `WaitCondition`: the kinds with a
registered readiness checker. -/
def WaitCondition : List Str := [lit "cluster"]

/-- The map `created` that `CreateResourcesWithReferences` builds from a
listing: name to identifier of the listed instances. -/
def existingInstances (respObj : GoMap Value) : GoMap Str :=
  match respObj.get (lit "data") with
  | some (.arr collections) =>
    collections.foldl
      (fun created obj =>
        match obj with
        | .obj objMap =>
          let createdName := getValue objMap (lit "name")
          if createdName ≠ [] then created.set createdName (getValue objMap (lit "id"))
          else created
        | _ => created)
      []
  | _ => []

/-- Go `x := ""; if s, ok := dataMap[key]; ok { x = s.(string) }`. -/
def stringField (dataMap : GoMap Value) (key : Str) : Res Str :=
  match dataMap.get key with
  | none => .ok []
  | some (.str s) => .ok s
  | some _ => .crash (lit "interface conversion: interface {} is not string")

/-- How the body of the loop over the records of a kind ends: the loop goes
on with the next record (`next`) or is left by `break` (`stop`). -/
inductive Flow where
  | next
  | stop
  deriving DecidableEq, Repr

/-- The end of the loop body: the readiness wait, when a checker is registered
for the kind. -/
def awaitReady {D : Type} (env : Env D) (schemaKey : Str) (baseClient : Option ClientRef)
    (id : Str) (w : World D) : World D × Res Flow :=
  if schemaKey ∈ WaitCondition then
    match callWait env baseClient id schemaKey w with
    | (w1, .ok _) => (w1, .ok Flow.next)
    | (w1, .err e) => (w1, .err e)
    | (w1, .crash e) => (w1, .crash e)
  else (w, .ok Flow.next)

/-- The loop body from `id := ""` on: reuse of a listed instance or creation,
then the readiness wait. -/
def createOrReuse {D : Type} (env : Env D) (schemaKey : Str) (baseClient : Option ClientRef)
    (name : Str) (dataMap : GoMap Value) (created : GoMap Str) (w : World D) :
    World D × Res Flow :=
  match created.get name with
  | some v => awaitReady env schemaKey baseClient v w
  | none =>
    match callCreate env baseClient schemaKey dataMap w with
    | (w1, .err e) =>
      if Contains e (lit "already exist") then (w1, .ok Flow.stop) else (w1, .err e)
    | (w1, .crash e) => (w1, .crash e)
    | (w1, .ok respObj) =>
      match respObj.get (lit "id") with
      | none => (w1, .err (lit "id is missing after creating " ++ schemaKey ++ lit " obj"))
      | some (.str id) => awaitReady env schemaKey baseClient id w1
      | some _ => (w1, .crash (lit "interface conversion: interface {} is not string"))

/-- The listing of the existing instances of a kind of the management
catalog, indexed by name. -/
def listExisting {D : Type} (env : Env D) (schemaKey : Str) (baseClient : Option ClientRef)
    (w : World D) : World D × Res (GoMap Str) :=
  if w.clientset.mClient.Types.has schemaKey then
    match callList env baseClient schemaKey w with
    | (w1, .ok respObj) => (w1, .ok (existingInstances respObj))
    | (w1, .err e) => (w1, .err e)
    | (w1, .crash e) => (w1, .crash e)
  else (w, .ok [])

/-- The first part of the loop body, for a record that is a map: the
references are resolved, the name is stored in the record, the scope
identifiers are read from it and the client is selected.  Returns the record
to submit and `baseClient`. -/
def resolveRecord {D : Type} (env : Env D) (schemas : GoMap Schema) (schemaKey name : Str)
    (dataMap : GoMap Value) (w : World D) : World D × Res (GoMap Value × Option ClientRef) :=
  let fields :=
    env.rangeFields schemaKey name ((schemas.get schemaKey).getD ⟨[]⟩).ResourceFields
  match replaceReference env schemaKey fields dataMap w with
  | ((_, w1), .err e) => (w1, .err e)
  | ((_, w1), .crash e) => (w1, .crash e)
  | ((dataMap1, w1), .ok _) =>
    let dataMap2 := dataMap1.set (lit "name") (.str name)
    match stringField dataMap2 (lit "clusterId") with
    | .err e => (w1, .err e)
    | .crash e => (w1, .crash e)
    | .ok clusterId =>
      match stringField dataMap2 (lit "projectId") with
      | .err e => (w1, .err e)
      | .crash e => (w1, .crash e)
      | .ok projectId =>
        match GetClient schemaKey w1.clientset clusterId projectId with
        | (cs, .err e) => ({ w1 with clientset := cs }, .err e)
        | (cs, .crash e) => ({ w1 with clientset := cs }, .crash e)
        | (cs, .ok baseClient) => ({ w1 with clientset := cs }, .ok (dataMap2, baseClient))

/-- The body of the loop `for name, data := range value` of
`CreateResourcesWithReferences`; the second component of the state is the
local variable `bClient`. -/
def processRecord {D : Type} (env : Env D) (schemas : GoMap Schema) (schemaKey name : Str)
    (data : Value) (w : World D) (bClient : Option ClientRef) :
    (World D × Option ClientRef) × Res Flow :=
  match data with
  | .obj dataMap =>
    match resolveRecord env schemas schemaKey name dataMap w with
    | (w2, .err e) => ((w2, bClient), .err e)
    | (w2, .crash e) => ((w2, bClient), .crash e)
    | (w2, .ok (dataMap2, baseClient)) =>
      match listExisting env schemaKey baseClient w2 with
      | (w3, .err e) => ((w3, baseClient), .err e)
      | (w3, .crash e) => ((w3, baseClient), .crash e)
      | (w3, .ok created) =>
        let r := createOrReuse env schemaKey baseClient name dataMap2 created w3
        ((r.1, baseClient), r.2)
  | _ => ((w, bClient), .ok Flow.stop)

/-- The loop `for name, data := range value`; `value` lists the records of
the kind in the order in which the loop ranges over them. -/
def processRecords {D : Type} (env : Env D) (schemas : GoMap Schema) (schemaKey : Str) :
    List (Str × Value) → World D → Option ClientRef → (World D × Option ClientRef) × Res Flow
  | [], w, bClient => ((w, bClient), .ok Flow.next)
  | (name, data) :: rest, w, bClient =>
    match processRecord env schemas schemaKey name data w bClient with
    | ((w1, b1), .ok Flow.next) => processRecords env schemas schemaKey rest w1 b1
    | other => other

/-- The body of the loop over `sortedSchemas`. -/
def processKind {D : Type} (env : Env D) (schemas : GoMap Schema) (rawMap : GoMap Value)
    (schemaKey : Str) (w : World D) : World D × Res Unit :=
  match rawMap.get (schemaKey ++ lit "s") with
  | some (.obj value) =>
    match processRecords env schemas schemaKey value w none with
    | ((w1, bClient), .ok _) =>
      match bClient with
      | none => (w1, .ok ())
      | some cl => fillInReferenceMap env (some cl) schemaKey w1
    | ((w1, _), .err e) => (w1, .err e)
    | ((w1, _), .crash e) => (w1, .crash e)
  | _ => (w, .ok ())

/-- The loop over `sortedSchemas`. -/
def processKinds {D : Type} (env : Env D) (schemas : GoMap Schema) (rawMap : GoMap Value) :
    List Str → World D → World D × Res Unit
  | [], w => (w, .ok ())
  | schemaKey :: rest, w =>
    match processKind env schemas rawMap schemaKey w with
    | (w1, .ok _) => processKinds env schemas rawMap rest w1
    | (w1, .err e) => (w1, .err e)
    | (w1, .crash e) => (w1, .crash e)

/-- Source `CreateResourcesWithReferences`, from the decoded document
`rawMap` on: the final state (with the trace of the calls made) and the
returned error, if any. -/
def CreateResourcesWithReferences {D : Type} (env : Env D) (clientset : ClientSet)
    (rawMap : GoMap Value) (dir : D) : World D × Res Unit :=
  let schemas := GetSchemaMap clientset
  let w0 : World D := { clientset := clientset, referenceMap := [], dir := dir, trace := [] }
  let rawMap1 := rawMap.delete (lit "version")
  let sortedSchemas := SortSchema env.rangeSchemas schemas
  processKinds env schemas rawMap1 sortedSchemas w0

/-! ## A concrete directory -/

/-- An instance held by the example directory. -/
structure Inst where
  kind : Str
  name : Str
  id : Str
  projectId : Str
  deriving DecidableEq, Repr

/-- The record the example directory returns for an instance. -/
def Inst.toValue (i : Inst) : Value :=
  .obj ([(lit "id", .str i.id), (lit "name", .str i.name)] ++
    (if i.projectId = [] then [] else [(lit "projectId", .str i.projectId)]))

/-- The identifier the example directory gives a new instance. -/
def newId (kind : Str) (data : GoMap Value) : Str :=
  if kind = lit "project" then
    getValue data (lit "clusterId") ++ lit ":p-" ++ getValue data (lit "name")
  else kind.take 1 ++ lit "-" ++ getValue data (lit "name")

/-- An example environment: the directory is the list of its instances,
creation refuses a name already taken in the kind, clusters are ready at once,
and maps are ranged in the order of their association lists. -/
def exEnv : Env (List Inst) where
  list := fun d _ _ kind =>
    (d, .ok [(lit "data", .arr ((d.filter fun i => i.kind = kind).map Inst.toValue))])
  create := fun d _ _ kind data =>
    if d.any (fun i => i.kind = kind ∧ i.name = getValue data (lit "name")) then
      (d, .error (kind ++ lit " " ++ getValue data (lit "name") ++ lit " already exists"))
    else
      let i : Inst := ⟨kind, getValue data (lit "name"), newId kind data,
        getValue data (lit "projectId")⟩
      (d ++ [i], .ok [(lit "id", .str i.id), (lit "name", .str i.name)])
  byID := fun d _ _ kind id =>
    match d.find? (fun i => i.kind = kind ∧ i.id = id) with
    | some i => (d, .ok ⟨i.name⟩)
    | none => (d, .error (lit "not found"))
  wait := fun d _ _ _ _ => (d, none)
  sprint := fun _ => lit "?"
  rangeSchemas := iterId
  rangeFields := fun _ _ fields => fields

/-- The schema of an example kind: the given reference fields and `creatorId`. -/
def mkSchema (refs : List (String × String)) : Schema :=
  ⟨refs.map (fun r => (lit r.1, ⟨lit r.2⟩)) ++
    [(lit "creatorId", ⟨lit "reference[/v3/schemas/user]"⟩), (lit "name", ⟨lit "string"⟩)]⟩

/-- An example clientset: `cluster` and `project` in the management catalog,
`secret` and `app` in the project catalog, `namespace` in the cluster catalog. -/
def exClientSet : ClientSet where
  mClient :=
    { URL := lit "https://localhost:8443/v3"
      Types := [ (lit "cluster", mkSchema []),
                 (lit "project", mkSchema [("clusterId", "reference[/v3/schemas/cluster]")]) ] }
  cClient :=
    { URL := lit "https://localhost:8443/v3/clusters"
      Types := [ (lit "namespace",
                  mkSchema [("projectId", "reference[/v3/schemas/project]")]) ] }
  pClient :=
    { URL := lit "https://localhost:8443/v3/projects"
      Types := [ (lit "secret", mkSchema [("projectId", "reference[/v3/schemas/project]")]),
                 (lit "app", mkSchema [("projectId", "reference[/v3/schemas/project]"),
                                       ("secretId", "reference[/v3/projects/schemas/secret]")]) ] }

/-- An example document: a cluster, two projects in it and one secret in each
project. -/
def exDocument : GoMap Value :=
  [ (lit "version", .str (lit "v3")),
    (lit "secrets", .obj [ (lit "s1", .obj [(lit "projectId", .str (lit "demo:p1"))]),
                           (lit "s2", .obj [(lit "projectId", .str (lit "demo:p2"))]) ]),
    (lit "projects", .obj [ (lit "p1", .obj [(lit "clusterId", .str (lit "demo"))]),
                            (lit "p2", .obj [(lit "clusterId", .str (lit "demo"))]) ]),
    (lit "clusters", .obj [ (lit "demo", .obj []) ]) ]

/-- Example caches: the cluster `demo`, the project `p1` in it, and a secret
stored under the composite key `<clusterId>:<projectId>:<name>`. -/
def exCaches : GoMap (GoMap Str) :=
  [ (lit "cluster", [(lit "demo", lit "c-demo")]),
    (lit "project", [(lit "demo:p1", lit "c-demo:p-p1")]),
    (lit "secret", [(lit "c-demo:c-demo:p-p1:s1", lit "s-s1"), (lit "s1", lit "s-plain")]) ]

/-- An example state with populated caches. -/
def exWorld : World (List Inst) :=
  { clientset := exClientSet, referenceMap := exCaches, dir := [], trace := [] }

/-- The field `projectId` of the example schemas. -/
def exProjectIdField : Str × Field := (lit "projectId", ⟨lit "reference[/v3/schemas/project]"⟩)

/-- The field `secretId` of the example kind `app`. -/
def exSecretIdField : Str × Field :=
  (lit "secretId", ⟨lit "reference[/v3/projects/schemas/secret]"⟩)

/-- A record of the project-scoped kind `app` that names its project and a
secret. -/
def exAppRecord : GoMap Value :=
  [(lit "projectId", .str (lit "demo:p1")), (lit "secretId", .str (lit "s1"))]

/-- The initial state of a run of `CreateResourcesWithReferences`. -/
def initWorld {D : Type} (clientset : ClientSet) (dir : D) : World D :=
  { clientset := clientset, referenceMap := [], dir := dir, trace := [] }

/-- A directory that already holds the cluster `demo`. -/
def exDirDemo : List Inst := [⟨lit "cluster", lit "demo", lit "c-1", []⟩]

/-- A directory that holds a cluster whose name is the empty string. -/
def exDirUnnamed : List Inst := [⟨lit "cluster", [], lit "c-x", []⟩]

/-- A document with one cluster whose key is the empty string. -/
def exDocumentUnnamed : GoMap Value := [(lit "clusters", .obj [([], .obj [])])]

/-- The listing the example directory `exDirDemo` returns for `cluster`. -/
def exListingDemo : List Value := [.obj [(lit "id", .str (lit "c-1")), (lit "name", .str (lit "demo"))]]

/-- The state after the listing of the clusters of `exDirDemo`. -/
def exWorldListed : World (List Inst) :=
  { initWorld exClientSet exDirDemo with
    trace := [Call.list ClientRef.mgmt (lit "https://localhost:8443/v3") (lit "cluster")] }

/-- A directory that holds the cluster `demo`, its project `p1` and the secret
`s1` of that project. -/
def exDirSecret : List Inst :=
  [ ⟨lit "cluster", lit "demo", lit "c-demo", []⟩,
    ⟨lit "project", lit "p1", lit "c-demo:p-p1", []⟩,
    ⟨lit "secret", lit "s1", lit "s-s1", lit "c-demo:p-p1"⟩ ]

/-- The records of the secrets `s1` (already in `exDirSecret`) and `s2`. -/
def exSecretRecords : List (Str × Value) :=
  [ (lit "s1", .obj [(lit "projectId", .str (lit "demo:p1"))]),
    (lit "s2", .obj [(lit "projectId", .str (lit "demo:p1"))]) ]

/-- A document with the two secrets of `exSecretRecords`. -/
def exDocumentSecrets : GoMap Value := [(lit "secrets", .obj exSecretRecords)]

/-- The record of `s1` as submitted for creation. -/
def exSecretSubmitted : GoMap Value :=
  [ (lit "projectId", .str (lit "c-demo:p-p1")), (lit "clusterId", .str (lit "c-demo")),
    (lit "name", .str (lit "s1")) ]

/-- The state after the record of `s1` has been resolved. -/
def exWorldResolved : World (List Inst) :=
  (resolveRecord exEnv (GetSchemaMap exClientSet) (lit "secret") (lit "s1")
    [(lit "projectId", .str (lit "demo:p1"))] (initWorld exClientSet exDirSecret)).1

/-- The state after the `Create` call for `s1`. -/
def exWorldRefused : World (List Inst) :=
  (callCreate exEnv (some ClientRef.project) (lit "secret") exSecretSubmitted
    exWorldResolved).1

/-- The call is a `Create`. -/
def Call.isCreate : Call → Bool
  | .create _ _ _ _ => true
  | _ => false

/-- From `w` to `w'` the catalogs of the three clients are unchanged and no
`Create` call was made: the trace of `w'` is the trace of `w` followed by
calls that are not `Create`. -/
structure Extends {D : Type} (w w' : World D) : Prop where
  mTypes : w'.clientset.mClient.Types = w.clientset.mClient.Types
  cTypes : w'.clientset.cClient.Types = w.clientset.cClient.Types
  pTypes : w'.clientset.pClient.Types = w.clientset.pClient.Types
  trace : ∃ ext, w'.trace = w.trace ++ ext ∧ ∀ call ∈ ext, Call.isCreate call = false

/-- The last instance of a listing whose `name` is `name`. -/
def lastNamed (collections : List Value) (name : Str) : Option (GoMap Value) :=
  collections.foldl
    (fun r obj =>
      match obj with
      | .obj objMap => if getValue objMap (lit "name") = name then some objMap else r
      | _ => r)
    none

/-- The base URLs of the `Create` calls of a trace for the kind `kind`. -/
def createURLs (trace : List Call) (kind : Str) : List Str :=
  trace.filterMap fun call =>
    match call with
    | .create _ url k _ => if k = kind then some url else none
    | _ => none

/-- From `w` to `w'` every cache that is populated keeps its content. -/
def KeepsCaches {D : Type} (w w' : World D) : Prop :=
  ∀ k m, w.referenceMap.get k = some m → w'.referenceMap.get k = some m

theorem GoMap.get_set {β : Type} (m : GoMap β) (k k' : Str) (v : β) :
    (m.set k v).get k' = if k = k' then some v else m.get k' := by
  induction m with
  | nil => simp [GoMap.set, GoMap.get]
  | cons e m ih =>
    obtain ⟨a, b⟩ := e
    by_cases h : a = k
    · subst h
      by_cases h' : a = k' <;> simp [GoMap.set, GoMap.get, h']
    · by_cases h' : a = k'
      · subst h'
        have : ¬ k = a := fun e => h e.symm
        simp [GoMap.set, GoMap.get, h, this]
      · simp [GoMap.set, GoMap.get, h, h', ih]

theorem GoMap.get_of_mem {β : Type} (m : GoMap β) (hwf : WellFormed m) (k : Str) (v : β)
    (h : (k, v) ∈ m) : m.get k = some v := by
  induction m with
  | nil => simp at h
  | cons e m ih =>
    obtain ⟨a, b⟩ := e
    simp only [WellFormed, GoMap.keys, List.map_cons, List.nodup_cons] at hwf
    rcases List.mem_cons.1 h with h | h
    · cases h; simp [GoMap.get]
    · have hne : a ≠ k := by
        rintro rfl
        exact hwf.1 (List.mem_map.2 ⟨(a, v), h, rfl⟩)
      simp only [GoMap.get, hne, if_false]
      exact ih hwf.2 h

theorem GoMap.mem_of_get {β : Type} (m : GoMap β) (k : Str) (v : β)
    (h : m.get k = some v) : (k, v) ∈ m := by
  induction m with
  | nil => simp [GoMap.get] at h
  | cons e m ih =>
    obtain ⟨a, b⟩ := e
    by_cases hk : a = k
    · subst hk
      simp [GoMap.get] at h
      subst h
      exact List.mem_cons_self _ _
    · simp only [GoMap.get, hk, if_false] at h
      exact List.mem_cons_of_mem _ (ih h)

theorem WellFormed.unique {β : Type} {m : GoMap β} (hwf : WellFormed m) {k : Str} {v w : β}
    (hv : (k, v) ∈ m) (hw : (k, w) ∈ m) : v = w := by
  have h1 := GoMap.get_of_mem m hwf k v hv
  have h2 := GoMap.get_of_mem m hwf k w hw
  rw [h1] at h2
  exact Option.some.inj h2

theorem isInserted_set (ins : GoMap Bool) (k k' : Str) :
    isInserted (ins.set k true) k' = (decide (k = k') || isInserted ins k') := by
  unfold isInserted
  rw [GoMap.get_set]
  by_cases h : k = k' <;> simp [h]

/-! ## Lemmas on `SortSchema` -/

theorem readyStep_eq (ins : GoMap Bool) (k : Str) (b : Bool) (f : Str × Field) :
    readyStep ins k b f = (b && !blocks ins k f) := by
  unfold readyStep blocks
  by_cases hc : Contains f.2.Typ (lit "reference") = true
  · by_cases hns : isNamespaceIDRef (getReference f.2.Typ) k = true
    · simp [hc, hns]
    · by_cases hi : isInserted ins (getReference f.2.Typ) = true
      · simp [hc, hns, hi]
      · by_cases h1 : f.1 = lit "creatorId"
        · simp [hc, hns, hi, h1]
        · by_cases h2 : k = getReference f.2.Typ
          · simp [hc, hns, hi, h1, ← h2]
          · simp [hc, hns, hi, h1, h2]
  · simp [hc]

theorem foldl_readyStep (ins : GoMap Bool) (k : Str) (fields : List (Str × Field)) (b : Bool) :
    fields.foldl (readyStep ins k) b = (b && fields.all (fun f => !blocks ins k f)) := by
  induction fields generalizing b with
  | nil => simp
  | cons f fs ih =>
    rw [List.foldl_cons, ih, readyStep_eq, List.all_cons, Bool.and_assoc]

theorem computeReady_iff (ins : GoMap Bool) (k : Str) (fields : List (Str × Field)) :
    computeReady ins k fields = true ↔ ∀ f ∈ fields, blocks ins k f = false := by
  unfold computeReady
  rw [foldl_readyStep]
  simp

theorem isNamespaceIDRef_eq_false_iff (r k : Str) :
    isNamespaceIDRef r k = false ↔
      ¬ (r = (lit "namespace") ∧ (namespacedSchema.get k).getD false = true) := by
  unfold isNamespaceIDRef
  by_cases h1 : r = (lit "namespace") <;>
    cases h2 : (namespacedSchema.get k).getD false <;> simp [h1]

theorem blocks_eq_false_of_ref {ins : GoMap Bool} {k : Str} {f : Str × Field} {r : Str}
    (h : blocks ins k f = false) (href : NonExemptRef k f r) : isInserted ins r = true := by
  obtain ⟨hc, hn, hr, hrk, hex⟩ := href
  subst hr
  have hns := (isNamespaceIDRef_eq_false_iff _ _).2 hex
  have hk : k ≠ getReference f.2.Typ := fun e => hrk e.symm
  unfold blocks at h
  simp only [hc, hns, Bool.not_false, Bool.true_and, hn, ne_eq, not_false_eq_true,
    decide_True, Bool.and_true, hk] at h
  simpa using h

theorem blocks_eq_false_of_all {ins : GoMap Bool} {k : Str} {f : Str × Field}
    (h : ∀ r, NonExemptRef k f r → isInserted ins r = true) : blocks ins k f = false := by
  unfold blocks
  by_cases hc : Contains f.2.Typ (lit "reference") = true
  · by_cases hns : isNamespaceIDRef (getReference f.2.Typ) k = true
    · simp [hns]
    · by_cases hn : f.1 = (lit "creatorId")
      · simp [hn]
      · by_cases hk : k = getReference f.2.Typ
        · simp [← hk]
        · have hns' : isNamespaceIDRef (getReference f.2.Typ) k = false := by simpa using hns
          have := h (getReference f.2.Typ)
            ⟨hc, hn, rfl, fun e => hk e.symm, (isNamespaceIDRef_eq_false_iff _ _).1 hns'⟩
          simp [this]
  · simp [hc]

theorem PlacedBefore.append {r k : Str} {l : List Str} (h : PlacedBefore r k l) (t : List Str) :
    PlacedBefore r k (l ++ t) := by
  obtain ⟨pre, post, rfl, hr⟩ := h
  exact ⟨pre, post ++ t, by simp, hr⟩

theorem PlacedBefore.occursBefore {r k : Str} {l : List Str} (h : PlacedBefore r k l)
    (hnd : l.Nodup) : OccursBefore r k l := by
  obtain ⟨pre, post, rfl, hr⟩ := h
  refine ⟨by simp [hr], by simp, ?_⟩
  intro i j hi hj
  obtain ⟨a, ha, hra⟩ := List.getElem_of_mem hr
  have hlen : a < (pre ++ k :: post).length := by simp; omega
  have h1 : (pre ++ k :: post)[a]? = some r := by
    rw [List.getElem?_append_left ha, List.getElem?_eq_getElem ha, hra]
  have h2 : (pre ++ k :: post)[pre.length]? = some k := by
    rw [List.getElem?_append_right (le_refl _)]
    simp
  have hinj : ∀ (x y : Nat) (v : Str), (pre ++ k :: post)[x]? = some v →
      (pre ++ k :: post)[y]? = some v → x = y := by
    intro x y v hx hy
    obtain ⟨hx1, hx2⟩ := List.getElem?_eq_some_iff.1 hx
    obtain ⟨hy1, hy2⟩ := List.getElem?_eq_some_iff.1 hy
    exact (List.Nodup.getElem_inj_iff hnd).1 (hx2.trans hy2.symm)
  have e1 := hinj i a r hi h1
  have e2 := hinj j pre.length k hj h2
  omega

theorem SortInv.init (schemas : GoMap Schema) :
    SortInv schemas { inserted := [], result := [] } := by
  constructor
  · intro k; simp [isInserted, GoMap.get]
  · simp
  · intro k hk; simp at hk
  · intro k hk; simp at hk

theorem sortVisit_result (st : SortState) (e : Str × Schema) :
    (sortVisit st e).result = st.result ∨ (sortVisit st e).result = st.result ++ [e.1] := by
  unfold sortVisit
  split
  · exact Or.inl rfl
  · split
    · exact Or.inr rfl
    · exact Or.inl rfl

theorem sortVisit_mono (st : SortState) (e : Str × Schema) {k : Str} (hk : k ∈ st.result) :
    k ∈ (sortVisit st e).result := by
  rcases sortVisit_result st e with h | h <;> rw [h]
  · exact hk
  · exact List.mem_append_left _ hk

theorem sortPass_mono (order : List (Str × Schema)) (st : SortState) {k : Str}
    (hk : k ∈ st.result) : k ∈ (sortPass st order).result := by
  induction order generalizing st with
  | nil => exact hk
  | cons e rest ih => exact ih (sortVisit st e) (sortVisit_mono st e hk)

theorem SortInv.visit {schemas : GoMap Schema} (hwf : WellFormed schemas) {st : SortState}
    (inv : SortInv schemas st) {e : Str × Schema} (he : e ∈ schemas) :
    SortInv schemas (sortVisit st e) := by
  obtain ⟨k, s⟩ := e
  unfold sortVisit
  by_cases hins : isInserted st.inserted k = true
  · simpa [hins] using inv
  · by_cases hready : computeReady st.inserted k s.ResourceFields = true
    · have hknot : k ∉ st.result := fun h => hins ((inv.ins_iff k).2 h)
      simp only [hins, hready, if_true, if_false, Bool.false_eq_true]
      constructor
      · intro k'
        rw [isInserted_set]
        simp only [Bool.or_eq_true, decide_eq_true_eq, inv.ins_iff k', List.mem_append,
          List.mem_singleton]
        constructor
        · rintro (h | h)
          · exact Or.inr h.symm
          · exact Or.inl h
        · rintro (h | h)
          · exact Or.inr h
          · exact Or.inl h.symm
      · refine List.Nodup.append inv.nodup (List.nodup_singleton k) ?_
        intro x hx hx'
        rw [List.mem_singleton] at hx'
        subst hx'
        exact hknot hx
      · intro k' hk'
        rcases List.mem_append.1 hk' with h | h
        · exact inv.keys k' h
        · rw [List.mem_singleton] at h
          subst h
          exact List.mem_map.2 ⟨(k', s), he, rfl⟩
      · intro k' hk' r hedge
        rcases List.mem_append.1 hk' with h | h
        · exact (inv.deps k' h r hedge).append [k]
        · rw [List.mem_singleton] at h
          subst h
          obtain ⟨s', f, hs', hf, href⟩ := hedge
          have hss : s' = s := hwf.unique hs' he
          subst hss
          have hb := (computeReady_iff _ _ _).1 hready f hf
          have hr := (inv.ins_iff r).1 (blocks_eq_false_of_ref hb href)
          exact ⟨st.result, [], rfl, hr⟩
    · simpa [hins, hready] using inv

theorem SortInv.pass {schemas : GoMap Schema} (hwf : WellFormed schemas)
    (order : List (Str × Schema)) (horder : ∀ e ∈ order, e ∈ schemas) {st : SortState}
    (inv : SortInv schemas st) : SortInv schemas (sortPass st order) := by
  induction order generalizing st with
  | nil => exact inv
  | cons e rest ih =>
    exact ih (fun x hx => horder x (List.mem_cons_of_mem _ hx))
      (inv.visit hwf (horder e (List.mem_cons_self _ _)))

theorem SortInv.passes {schemas : GoMap Schema} (hwf : WellFormed schemas)
    {iter : Nat → GoMap Schema → List (Str × Schema)} (hiter : ValidIter iter schemas) (n : Nat) :
    SortInv schemas (sortPasses iter schemas n) := by
  induction n with
  | zero => exact SortInv.init schemas
  | succ n ih =>
    exact ih.pass hwf (iter n schemas) (fun e he => (hiter n).subset he)

/-- A kind whose non-exempt references are all placed is placed by the pass
that visits it. -/
theorem sortPass_places {schemas : GoMap Schema} (hwf : WellFormed schemas)
    (order : List (Str × Schema)) (horder : ∀ e ∈ order, e ∈ schemas) {st : SortState}
    (inv : SortInv schemas st) {k : Str} {s : Schema} (hks : (k, s) ∈ order)
    (hdeps : ∀ r, Edge schemas k r → r ∈ st.result) : k ∈ (sortPass st order).result := by
  induction order generalizing st with
  | nil => simp at hks
  | cons e rest ih =>
    have he : e ∈ schemas := horder e (List.mem_cons_self _ _)
    have hrest : ∀ x ∈ rest, x ∈ schemas := fun x hx => horder x (List.mem_cons_of_mem _ hx)
    rcases List.mem_cons.1 hks with h | h
    · subst h
      show k ∈ (sortPass (sortVisit st (k, s)) rest).result
      apply sortPass_mono rest
      unfold sortVisit
      by_cases hins : isInserted st.inserted k = true
      · simpa [hins] using (inv.ins_iff k).1 hins
      · have hready : computeReady st.inserted k s.ResourceFields = true := by
          rw [computeReady_iff]
          intro f hf
          apply blocks_eq_false_of_all
          intro r href
          exact (inv.ins_iff r).2 (hdeps r ⟨s, f, he, hf, href⟩)
        simp [hins, hready]
    · exact ih hrest (inv.visit hwf he) h (fun r hr => sortVisit_mono st e (hdeps r hr))

theorem sortPasses_layer {schemas : GoMap Schema} (hwf : WellFormed schemas)
    {iter : Nat → GoMap Schema → List (Str × Schema)} (hiter : ValidIter iter schemas)
    (hclosed : Closed schemas) (depth : Str → Nat)
    (hdepth : ∀ k r, Edge schemas k r → depth r < depth k) (n : Nat) :
    ∀ k ∈ schemas.keys, depth k < n → k ∈ (sortPasses iter schemas n).result := by
  induction n with
  | zero => intro k _ h; omega
  | succ n ih =>
    intro k hk hd
    obtain ⟨⟨k', s⟩, hmem, hk'⟩ := List.mem_map.1 hk
    simp only at hk'
    subst hk'
    show k' ∈ (sortPass (sortPasses iter schemas n) (iter n schemas)).result
    refine sortPass_places hwf (iter n schemas) (fun e he => (hiter n).subset he)
      (SortInv.passes hwf hiter n) ((hiter n).symm.subset hmem) ?_
    intro r hedge
    have := hdepth k' r hedge
    exact ih r (hclosed k' r hedge) (by omega)

/-- Once a pass leaves the state unchanged for every later iteration order,
the remaining passes do nothing. -/
theorem sortPasses_of_fixed (iter : Nat → GoMap Schema → List (Str × Schema))
    (schemas : GoMap Schema) (n : Nat)
    (hfix : ∀ i, n ≤ i →
      sortPass (sortPasses iter schemas n) (iter i schemas) = sortPasses iter schemas n)
    (m : Nat) : sortPasses iter schemas (n + m) = sortPasses iter schemas n := by
  induction m with
  | zero => rfl
  | succ m ih =>
    show sortPass (sortPasses iter schemas (n + m)) (iter (n + m) schemas) = _
    rw [ih]
    exact hfix (n + m) (Nat.le_add_right n m)

theorem SortSchema_of_fixed (iter : Nat → GoMap Schema → List (Str × Schema))
    (schemas : GoMap Schema) (n : Nat) (hn : n ≤ 100)
    (hfix : ∀ i, n ≤ i →
      sortPass (sortPasses iter schemas n) (iter i schemas) = sortPasses iter schemas n) :
    SortSchema iter schemas = (sortPasses iter schemas n).result := by
  unfold SortSchema
  have := sortPasses_of_fixed iter schemas n hfix (100 - n)
  rw [show n + (100 - n) = 100 by omega] at this
  rw [this]

/-! ## The non-exempt reference graph -/

theorem nonExemptB_iff (k : Str) (f : Str × Field) (r : Str) :
    NonExemptRef k f r ↔ nonExemptB k f = true ∧ r = getReference f.2.Typ := by
  unfold NonExemptRef nonExemptB
  rw [← isNamespaceIDRef_eq_false_iff]
  constructor
  · rintro ⟨h1, h2, h3, h4, h5⟩
    subst h3
    simp [h1, h2, h4, h5]
  · rintro ⟨h, rfl⟩
    simp only [Bool.and_eq_true, decide_eq_true_eq, Bool.not_eq_true'] at h
    exact ⟨h.1.1.1, h.1.1.2, rfl, h.1.2, h.2⟩

theorem edge_iff (schemas : GoMap Schema) (k r : Str) :
    Edge schemas k r ↔ (k, r) ∈ edges schemas := by
  unfold Edge edges
  simp only [List.mem_flatMap, List.mem_map, List.mem_filter, Prod.mk.injEq]
  constructor
  · rintro ⟨s, f, hs, hf, href⟩
    obtain ⟨hb, hr⟩ := (nonExemptB_iff k f r).1 href
    exact ⟨(k, s), hs, f, ⟨hf, hb⟩, rfl, hr.symm⟩
  · rintro ⟨⟨k', s⟩, hs, f, ⟨hf, hb⟩, hk, hr⟩
    simp only at hk hr hf hb
    subst hk
    exact ⟨s, f, hs, hf, (nonExemptB_iff k' f r).2 ⟨hb, hr.symm⟩⟩

theorem closed_of_edges (schemas : GoMap Schema)
    (h : ∀ e ∈ edges schemas, e.2 ∈ schemas.keys) : Closed schemas := by
  intro k r hedge
  exact h (k, r) ((edge_iff schemas k r).1 hedge)

theorem layered_of_edges (schemas : GoMap Schema) (n : Nat) (depth : Str → Nat)
    (h1 : ∀ e ∈ edges schemas, depth e.2 < depth e.1)
    (h2 : ∀ k ∈ schemas.keys, depth k < n) : Layered schemas n :=
  ⟨depth, fun k r hedge => h1 (k, r) ((edge_iff schemas k r).1 hedge), h2⟩

theorem acyclic_of_layered {schemas : GoMap Schema} {n : Nat} (h : Layered schemas n) :
    Acyclic schemas := by
  obtain ⟨depth, hd, _⟩ := h
  have key : ∀ a b, Relation.TransGen (Edge schemas) a b → depth b < depth a := by
    intro a b hab
    induction hab with
    | single h => exact hd _ _ h
    | tail _ h ih => exact lt_trans (hd _ _ h) ih
  intro k hk
  exact lt_irrefl _ (key k k hk)

/-! ## C1 and C2: the creation plan -/

/-- C2: for every schema map and every iteration order of its passes, a kind
`k` that occurs in the result of `SortSchema` occurs there once, and every
kind `r` it references through a non-exempt reference field occurs in the
result, strictly before `k`. -/
theorem SortSchema_placed_after_references
    (iter : Nat → GoMap Schema → List (Str × Schema)) (schemas : GoMap Schema)
    (hwf : WellFormed schemas) (hiter : ValidIter iter schemas) (k r : Str)
    (hedge : Edge schemas k r) (hk : k ∈ SortSchema iter schemas) :
    (SortSchema iter schemas).Nodup ∧ OccursBefore r k (SortSchema iter schemas) := by
  have inv := SortInv.passes hwf hiter 100
  exact ⟨inv.nodup, (inv.deps k hk r hedge).occursBefore inv.nodup⟩

theorem SortSchema_exCatalog :
    SortSchema iterRev exCatalog = [lit "cluster", lit "project", lit "namespace"] := by
  rw [SortSchema_of_fixed iterRev exCatalog 1 (by decide) (fun _ _ =>
    (by decide : sortPass (sortPasses iterRev exCatalog 1) exCatalog.reverse = _))]
  decide

theorem SortSchema_exDangling : SortSchema iterId exDangling = [] := by
  rw [SortSchema_of_fixed iterId exDangling 0 (by decide) (fun _ _ =>
    (by decide : sortPass (sortPasses iterId exDangling 0) exDangling = _))]
  decide

/-- Witness of C2 on `exCatalog`, ranged in reverse order: `namespace`
references `project` and is placed after it. -/
theorem SortSchema_placed_after_references_witness :
    (SortSchema iterRev exCatalog).Nodup ∧
      OccursBefore (lit "project") (lit "namespace") (SortSchema iterRev exCatalog) :=
  SortSchema_placed_after_references iterRev exCatalog (by decide)
    (fun _ => List.reverse_perm _) (lit "namespace") (lit "project")
    ((edge_iff _ _ _).2 (by decide)) (by rw [SortSchema_exCatalog]; decide)

/-- C1, amended: for every schema map whose non-exempt references all target
kinds of the map and whose non-exempt reference graph is acyclic with no chain
of references longer than 100 kinds, and for every iteration order of the
passes, `SortSchema` returns every kind of the map exactly once, each kind
strictly after all kinds it non-exemptly references. -/
theorem SortSchema_complete_of_layered
    (iter : Nat → GoMap Schema → List (Str × Schema)) (schemas : GoMap Schema)
    (hwf : WellFormed schemas) (hiter : ValidIter iter schemas)
    (hclosed : Closed schemas) (hlay : Layered schemas 100) :
    (SortSchema iter schemas).Perm schemas.keys ∧
      ∀ k r, Edge schemas k r → OccursBefore r k (SortSchema iter schemas) := by
  have inv := SortInv.passes hwf hiter 100
  obtain ⟨depth, hd, hb⟩ := hlay
  have hall : ∀ k ∈ schemas.keys, k ∈ SortSchema iter schemas := fun k hk =>
    sortPasses_layer hwf hiter hclosed depth hd 100 k hk (hb k hk)
  refine ⟨?_, ?_⟩
  · exact (List.perm_ext_iff_of_nodup inv.nodup hwf).2 fun a => ⟨inv.keys a, hall a⟩
  · intro k r hedge
    have hk : k ∈ schemas.keys := by
      obtain ⟨s, _, hs, _, _⟩ := hedge
      exact List.mem_map.2 ⟨(k, s), hs, rfl⟩
    exact (inv.deps k (hall k hk) r hedge).occursBefore inv.nodup

/-- Witness of the amended C1 on `exCatalog`, ranged in reverse order. -/
theorem SortSchema_complete_of_layered_witness :
    (SortSchema iterRev exCatalog).Perm exCatalog.keys ∧
      ∀ k r, Edge exCatalog k r → OccursBefore r k (SortSchema iterRev exCatalog) :=
  SortSchema_complete_of_layered iterRev exCatalog (by decide) (fun _ => List.reverse_perm _)
    (closed_of_edges _ (by decide))
    (layered_of_edges _ 100 exCatalogDepth (by decide) (by decide))

/-! ## A chain of 101 kinds, ranged against the references -/

theorem chainDepth_chainName : ∀ i < 101, chainDepth (chainName i) = i := by
  decide!

theorem chainName_injective {i j : Nat} (hi : i < 101) (hj : j < 101)
    (h : chainName i = chainName j) : i = j := by
  have := congrArg chainDepth h
  rwa [chainDepth_chainName i hi, chainDepth_chainName j hj] at this

theorem chainType_spec :
    ∀ i < 100, Contains (chainType i) (lit "reference") = true ∧
      getReference (chainType i) = chainName i ∧
      isNamespaceIDRef (chainName i) (chainName (i + 1)) = false := by
  decide!

theorem exChain_reverse : exChain.reverse = chainDesc 101 := by
  decide!

theorem GoMap.get_map_true (l : List Nat) (f : Nat → Str) (k : Str) :
    GoMap.get (l.map fun i => (f i, true)) k = if k ∈ l.map f then some true else none := by
  induction l with
  | nil => simp [GoMap.get]
  | cons a l ih =>
    by_cases h : f a = k
    · simp [GoMap.get, h]
    · have h' : ¬ k = f a := fun e => h e.symm
      simp [GoMap.get, h, h', ih]

theorem GoMap.set_of_get_none {β : Type} (m : GoMap β) (k : Str) (v : β)
    (h : m.get k = none) : m.set k v = m ++ [(k, v)] := by
  induction m with
  | nil => rfl
  | cons e m ih =>
    obtain ⟨a, b⟩ := e
    by_cases hk : a = k
    · simp [GoMap.get, hk] at h
    · simp only [GoMap.get, hk, if_false] at h
      simp [GoMap.set, hk, ih h]

theorem chainState_inserted_lt {n j : Nat} (h : j < n) :
    isInserted (chainState n).inserted (chainName j) = true := by
  have : chainName j ∈ (List.range n).map chainName :=
    List.mem_map.2 ⟨j, List.mem_range.2 h, rfl⟩
  simp [isInserted, chainState, GoMap.get_map_true, this]

theorem chainName_not_mem {n j : Nat} (hn : n ≤ j) (hj : j < 101) :
    chainName j ∉ (List.range n).map chainName := by
  intro hmem
  obtain ⟨i, hi, he⟩ := List.mem_map.1 hmem
  have hi' := List.mem_range.1 hi
  have := chainName_injective (by omega) hj he
  omega

theorem chainState_inserted_ge {n j : Nat} (hn : n ≤ j) (hj : j < 101) :
    isInserted (chainState n).inserted (chainName j) = false := by
  simp [isInserted, chainState, GoMap.get_map_true, chainName_not_mem hn hj]

theorem chainEntry_fst (j : Nat) : (chainEntry j).1 = chainName j := by
  cases j <;> rfl

/-- A kind of the chain that is placed is skipped. -/
theorem sortVisit_chain_lt {n j : Nat} (h : j < n) :
    sortVisit (chainState n) (chainEntry j) = chainState n := by
  unfold sortVisit
  rw [chainEntry_fst, chainState_inserted_lt h]
  rfl

/-- A kind of the chain whose referenced kind is not placed stays unplaced. -/
theorem sortVisit_chain_gt {n j : Nat} (h : n < j) (hj : j < 101) :
    sortVisit (chainState n) (chainEntry j) = chainState n := by
  obtain ⟨k, rfl⟩ : ∃ k, j = k + 1 := ⟨j - 1, by omega⟩
  obtain ⟨hc, hr, hns⟩ := chainType_spec k (by omega)
  have hne : chainName (k + 1) ≠ chainName k := fun e => by
    have := chainName_injective hj (by omega) e
    omega
  have hnot : computeReady (chainState n).inserted (chainName (k + 1))
      [(lit "parentId", ⟨chainType k⟩)] = false := by
    have hb : blocks (chainState n).inserted (chainName (k + 1))
        (lit "parentId", ⟨chainType k⟩) = true := by
      unfold blocks
      simp only [hc, hr, hns, chainState_inserted_ge (show n ≤ k by omega) (show k < 101 by omega)]
      simp only [Bool.not_false, Bool.and_self, Bool.true_and, Bool.and_eq_true,
        decide_eq_true_eq]
      exact ⟨by decide, hne⟩
    cases hcr : computeReady (chainState n).inserted (chainName (k + 1))
        [(lit "parentId", ⟨chainType k⟩)] with
    | false => rfl
    | true =>
      have := (computeReady_iff _ _ _).1 hcr _ (List.mem_singleton.2 rfl)
      rw [hb] at this
      cases this
  unfold sortVisit
  show (if isInserted (chainState n).inserted (chainName (k + 1)) = true then chainState n
    else if computeReady (chainState n).inserted (chainName (k + 1))
        [(lit "parentId", ⟨chainType k⟩)] = true then _ else chainState n) = chainState n
  rw [chainState_inserted_ge (show n ≤ k + 1 by omega) hj, hnot]
  rfl

/-- The first unplaced kind of the chain is placed. -/
theorem sortVisit_chain_eq {n : Nat} (hn : n < 101) :
    sortVisit (chainState n) (chainEntry n) = chainState (n + 1) := by
  have hready : computeReady (chainState n).inserted (chainEntry n).1
      (chainEntry n).2.ResourceFields = true := by
    rw [computeReady_iff]
    intro f hf
    cases n with
    | zero => simp [chainEntry] at hf
    | succ k =>
      simp only [chainEntry, List.mem_singleton] at hf
      subst hf
      obtain ⟨_, hr, _⟩ := chainType_spec k (by omega)
      unfold blocks
      simp [hr, chainState_inserted_lt (show k < k + 1 by omega)]
  have hget : (chainState n).inserted.get (chainName n) = none := by
    simp [chainState, GoMap.get_map_true, chainName_not_mem (le_refl n) hn]
  unfold sortVisit
  rw [hready]
  rw [chainEntry_fst, chainState_inserted_ge (le_refl n) hn]
  simp only [Bool.false_eq_true, if_false, if_true]
  rw [GoMap.set_of_get_none _ _ _ hget]
  simp [chainState, List.range_succ]

theorem sortPass_chain_placed (n m : Nat) (h : m ≤ n) :
    sortPass (chainState n) (chainDesc m) = chainState n := by
  induction m with
  | zero => rfl
  | succ m ih =>
    show sortPass (sortVisit (chainState n) (chainEntry m)) (chainDesc m) = _
    rw [sortVisit_chain_lt (by omega)]
    exact ih (by omega)

/-- A pass that ranges over the chain from the last kind to the first places
exactly one kind. -/
theorem sortPass_chain (n m : Nat) (h1 : n < m) (h2 : m ≤ 101) :
    sortPass (chainState n) (chainDesc m) = chainState (n + 1) := by
  induction m with
  | zero => omega
  | succ m ih =>
    show sortPass (sortVisit (chainState n) (chainEntry m)) (chainDesc m) = _
    by_cases hm : m = n
    · subst hm
      rw [sortVisit_chain_eq (by omega)]
      exact sortPass_chain_placed (m + 1) m (by omega)
    · rw [sortVisit_chain_gt (by omega) (by omega)]
      exact ih (by omega) (by omega)

theorem sortPasses_chain (n : Nat) (h : n ≤ 101) :
    sortPasses iterRev exChain n = chainState n := by
  induction n with
  | zero => rfl
  | succ n ih =>
    show sortPass (sortPasses iterRev exChain n) exChain.reverse = _
    rw [ih (by omega), exChain_reverse]
    exact sortPass_chain n 101 (by omega) (le_refl _)

theorem SortSchema_of_passes (iter : Nat → GoMap Schema → List (Str × Schema))
    (schemas : GoMap Schema) (st : SortState) (h : sortPasses iter schemas 100 = st) :
    SortSchema iter schemas = st.result := by
  unfold SortSchema
  rw [h]

theorem SortSchema_exChain :
    SortSchema iterRev exChain = (List.range 100).map chainName :=
  SortSchema_of_passes iterRev exChain (chainState 100) (sortPasses_chain 100 (by omega))

theorem chainName_not_in_SortSchema : chainName 100 ∉ SortSchema iterRev exChain := by
  rw [SortSchema_exChain]
  exact chainName_not_mem (le_refl 100) (by omega)

theorem exChain_wellFormed : WellFormed exChain := by
  decide!

theorem exChain_closed : Closed exChain :=
  closed_of_edges _ (by decide!)

theorem exChain_acyclic : Acyclic exChain :=
  acyclic_of_layered (layered_of_edges _ 101 chainDepth (by decide!) (by decide!))

theorem exChain_last_mem : chainName 100 ∈ exChain.keys := by
  decide!

/-- C1 as stated fails.  The graph of `exDangling` is acyclic (its only edge
goes from `workload` to `namespace`, which is not a kind of the map), yet
`SortSchema` omits `workload`, the only kind of the map.  The graph of
`exChain` is acyclic and all its references target kinds of the map, yet when
every pass ranges over the map from the last kind to the first, the 100 passes
place the first 100 kinds only and `SortSchema` omits the last one. -/
theorem SortSchema_omits_kinds_of_acyclic_maps :
    (WellFormed exDangling ∧ ValidIter iterId exDangling ∧ Acyclic exDangling ∧
      lit "workload" ∈ exDangling.keys ∧ SortSchema iterId exDangling = []) ∧
    (WellFormed exChain ∧ ValidIter iterRev exChain ∧ Acyclic exChain ∧ Closed exChain ∧
      chainName 100 ∈ exChain.keys ∧ chainName 100 ∉ SortSchema iterRev exChain) :=
  ⟨⟨by decide, fun _ => List.Perm.refl _,
      acyclic_of_layered (layered_of_edges _ 2 exDanglingDepth (by decide) (by decide)),
      by decide, SortSchema_exDangling⟩,
    ⟨exChain_wellFormed, fun _ => List.reverse_perm _, exChain_acyclic, exChain_closed,
      exChain_last_mem, chainName_not_in_SortSchema⟩⟩

/-! ## C7: the client selector -/

/-- C7: for every kind, clientset and pair (clusterId, projectId), `GetClient`
returns an error exactly when the kind is in the project catalog and projectId
is empty, or the kind is in the cluster catalog and clusterId is empty;
otherwise it returns the cluster-scoped client if the kind is in the cluster
catalog, else the project-scoped client if it is in the project catalog, else
the global client if it is in the global catalog (else nil). -/
theorem GetClient_selects (schemaType : Str) (cs : ClientSet) (clusterId projectId : Str) :
    ((∃ e, (GetClient schemaType cs clusterId projectId).2 = .err e) ↔
      (cs.pClient.Types.has schemaType = true ∧ projectId = []) ∨
        (cs.cClient.Types.has schemaType = true ∧ clusterId = [])) ∧
    (GetClient schemaType cs clusterId projectId).2 =
      if cs.pClient.Types.has schemaType = true ∧ projectId = [] then
        .err (lit "projectId is required for " ++ schemaType)
      else if cs.cClient.Types.has schemaType = true ∧ clusterId = [] then
        .err (lit "clusterId is required for " ++ schemaType)
      else
        .ok (if cs.cClient.Types.has schemaType = true then some ClientRef.cluster
             else if cs.pClient.Types.has schemaType = true then some ClientRef.project
             else if cs.mClient.Types.has schemaType = true then some ClientRef.mgmt
             else none) := by
  unfold GetClient
  by_cases hp : cs.pClient.Types.has schemaType = true <;>
    by_cases hc : cs.cClient.Types.has schemaType = true <;>
    by_cases hpi : projectId = [] <;> by_cases hci : clusterId = [] <;>
    simp [hp, hc, hpi, hci]

/-! ## Lemmas on `Split` and `replaceReference` -/

/-- C4 at the failing inputs `demo` and `a:b:c`: `parseClusterAndProjectId`
returns two empty identifiers and no error, and `replaceReference`, on a
schema whose `projectId` field references `project`, returns no error and
stores the empty string in `projectId` and `clusterId`. -/
theorem parseClusterAndProjectId_malformed_no_error :
    Split (lit "demo") ':' = [lit "demo"] ∧
    Split (lit "a:b:c") ':' = [lit "a", lit "b", lit "c"] ∧
    parseClusterAndProjectId [(lit "projectId", .str (lit "demo"))] exCaches = .ok ([], []) ∧
    parseClusterAndProjectId [(lit "projectId", .str (lit "a:b:c"))] exCaches = .ok ([], []) ∧
    replaceReference exEnv (lit "secret") [exProjectIdField]
        [(lit "projectId", .str (lit "demo"))] exWorld =
      (([(lit "projectId", .str []), (lit "clusterId", .str [])], exWorld), .ok ()) ∧
    replaceReference exEnv (lit "secret") [exProjectIdField]
        [(lit "projectId", .str (lit "a:b:c"))] exWorld =
      (([(lit "projectId", .str []), (lit "clusterId", .str [])], exWorld), .ok ()) := by
  decide

/-! ## C3: lookup under the composite key -/

/-- C3 at a failing input: the kind `app` is project-scoped, its field
`secretId` references the cached kind `secret`, and the cache of `secret`
holds `s-s1` under the composite key `c-demo:c-demo:p-p1:s1`.  When the loop
visits `secretId` first, `replaceReference` stores a nil `map[string]string`
in the field (it indexes `referenceMap` itself with the composite key); when
it visits `projectId` first, it returns an error.  In neither order is the
field rewritten to `s-s1`. -/
theorem replaceReference_composite_key_not_identifier :
    exWorld.clientset.pClient.Types.has (lit "app") = true ∧
    parseClusterAndProjectId exAppRecord exWorld.referenceMap =
      .ok (lit "c-demo", lit "c-demo:p-p1") ∧
    getRef exWorld.referenceMap (lit "secret")
      (lit "c-demo" ++ lit ":" ++ lit "c-demo:p-p1" ++ lit ":" ++ lit "s1") = some (lit "s-s1") ∧
    replaceReference exEnv (lit "app") [exSecretIdField, exProjectIdField] exAppRecord exWorld =
      (([(lit "projectId", .str (lit "c-demo:p-p1")), (lit "secretId", .strMap none),
         (lit "clusterId", .str (lit "c-demo"))], exWorld), .ok ()) ∧
    replaceReference exEnv (lit "app") [exProjectIdField, exSecretIdField] exAppRecord exWorld =
      (([(lit "projectId", .str (lit "c-demo:p-p1")), (lit "secretId", .str (lit "s1")),
         (lit "clusterId", .str (lit "c-demo"))], exWorld),
        .err (lit "failed to find clusterId reference")) := by
  decide

/-! ## Lemmas on traces -/

theorem Extends.refl {D : Type} (w : World D) : Extends w w :=
  ⟨rfl, rfl, rfl, [], by simp, by simp⟩

theorem Extends.trans {D : Type} {w1 w2 w3 : World D} (h12 : Extends w1 w2)
    (h23 : Extends w2 w3) : Extends w1 w3 := by
  obtain ⟨e1, he1, hc1⟩ := h12.trace
  obtain ⟨e2, he2, hc2⟩ := h23.trace
  refine ⟨h23.mTypes.trans h12.mTypes, h23.cTypes.trans h12.cTypes,
    h23.pTypes.trans h12.pTypes, e1 ++ e2, by rw [he2, he1, List.append_assoc], ?_⟩
  intro call hcall
  rcases List.mem_append.1 hcall with h | h
  · exact hc1 call h
  · exact hc2 call h

theorem Extends.of_referenceMap {D : Type} (w : World D) (rm : GoMap (GoMap Str)) :
    Extends w { w with referenceMap := rm } :=
  ⟨rfl, rfl, rfl, [], by simp, by simp⟩

theorem callList_extends {D : Type} (env : Env D) (client : Option ClientRef) (k : Str)
    (w : World D) : Extends w (callList env client k w).1 := by
  unfold callList
  cases client with
  | none => exact Extends.refl w
  | some cl =>
    have key : Extends w { w with
        dir := (env.list w.dir cl (w.clientset.client cl).URL k).1,
        trace := w.trace ++ [Call.list cl (w.clientset.client cl).URL k] } :=
      ⟨rfl, rfl, rfl, _, rfl, by simp [Call.isCreate]⟩
    simp only
    split <;> exact key

theorem callByID_extends {D : Type} (env : Env D) (cl : ClientRef) (k id : Str)
    (w : World D) : Extends w (callByID env cl k id w).1 := by
  unfold callByID
  have key : Extends w { w with
      dir := (env.byID w.dir cl (w.clientset.client cl).URL k id).1,
      trace := w.trace ++ [Call.byID cl (w.clientset.client cl).URL k id] } :=
    ⟨rfl, rfl, rfl, _, rfl, by simp [Call.isCreate]⟩
  simp only
  split <;> exact key

theorem callWait_extends {D : Type} (env : Env D) (client : Option ClientRef) (id k : Str)
    (w : World D) : Extends w (callWait env client id k w).1 := by
  unfold callWait
  cases client with
  | none => exact Extends.refl w
  | some cl =>
    have key : Extends w { w with
        dir := (env.wait w.dir cl (w.clientset.client cl).URL id k).1,
        trace := w.trace ++ [Call.wait cl (w.clientset.client cl).URL id k] } :=
      ⟨rfl, rfl, rfl, _, rfl, by simp [Call.isCreate]⟩
    simp only
    split <;> exact key

theorem fillEntry_extends {D : Type} (env : Env D) (cl : ClientRef) (k : Str) (w : World D)
    (obj : Value) : Extends w (fillEntry env cl k w obj).1 := by
  unfold fillEntry
  split
  · rename_i objMap
    simp only
    split
    · split
      · rename_i cId x hsplit
        have h1 := callByID_extends env cl (lit "cluster") cId w
        rcases hb : callByID env cl (lit "cluster") cId w with ⟨w1, r⟩
        rw [hb] at h1
        cases r with
        | ok cluster =>
          simp only
          split
          · split
            · exact h1.trans (Extends.of_referenceMap _ _)
            · exact h1.trans (Extends.of_referenceMap _ _)
          · exact h1
        | err e => exact h1
        | crash e => exact h1
      · exact Extends.refl w
    · split
      · split
        · exact Extends.of_referenceMap _ _
        · exact Extends.of_referenceMap _ _
      · exact Extends.refl w
  · exact Extends.refl w

theorem fillEntries_extends {D : Type} (env : Env D) (cl : ClientRef) (k : Str)
    (objs : List Value) (w : World D) : Extends w (fillEntries env cl k objs w).1 := by
  induction objs generalizing w with
  | nil => exact Extends.refl w
  | cons obj rest ih =>
    unfold fillEntries
    have h1 := fillEntry_extends env cl k w obj
    rcases hb : fillEntry env cl k w obj with ⟨w1, r⟩
    rw [hb] at h1
    cases r with
    | ok u => exact h1.trans (ih w1)
    | err e => exact h1
    | crash e => exact h1

theorem fillInReferenceMap_extends {D : Type} (env : Env D) (client : Option ClientRef)
    (k : Str) (w : World D) : Extends w (fillInReferenceMap env client k w).1 := by
  unfold fillInReferenceMap
  split
  · exact Extends.refl w
  · have h0 : Extends w { w with referenceMap := w.referenceMap.set k [] } :=
      Extends.of_referenceMap _ _
    have h1 := callList_extends env client k { w with referenceMap := w.referenceMap.set k [] }
    simp only
    rcases hb : callList env client k { w with referenceMap := w.referenceMap.set k [] }
      with ⟨w1, r⟩
    rw [hb] at h1
    cases r with
    | ok respObj =>
      simp only
      split
      · exact (h0.trans h1).trans (fillEntries_extends env _ k _ w1)
      · exact h0.trans h1
    | err e => exact h0.trans h1
    | crash e => exact h0.trans h1

theorem GetClient_extends {D : Type} (w : World D) (k clusterId projectId : Str) :
    Extends w { w with clientset := (GetClient k w.clientset clusterId projectId).1 } := by
  unfold GetClient
  refine ⟨?_, ?_, ?_, [], by simp, by simp⟩ <;>
  · simp only
    split
    · rfl
    · split <;> split <;> (try split) <;> rfl

theorem fillMissing_extends {D : Type} (env : Env D) (reference : Str) (data : GoMap Value)
    (w : World D) : Extends w (fillMissing env reference data w).1 := by
  unfold fillMissing
  have h1 : Extends w (if !w.referenceMap.has (lit "project") then
      fillInReferenceMap env (some ClientRef.mgmt) (lit "project") w else (w, Res.ok ())).1 := by
    split
    · exact fillInReferenceMap_extends env _ _ w
    · exact Extends.refl w
  rcases hb1 : (if !w.referenceMap.has (lit "project") then
      fillInReferenceMap env (some ClientRef.mgmt) (lit "project") w else (w, Res.ok ()))
    with ⟨w1, r1⟩
  rw [hb1] at h1
  simp only
  cases r1 with
  | err e => exact h1
  | crash e => exact h1
  | ok u =>
    simp only
    have h2 : Extends w1 (if !w1.referenceMap.has (lit "cluster") then
        fillInReferenceMap env (some ClientRef.mgmt) (lit "cluster") w1
        else (w1, Res.ok ())).1 := by
      split
      · exact fillInReferenceMap_extends env _ _ w1
      · exact Extends.refl w1
    rcases hb2 : (if !w1.referenceMap.has (lit "cluster") then
        fillInReferenceMap env (some ClientRef.mgmt) (lit "cluster") w1
        else (w1, Res.ok ())) with ⟨w2, r2⟩
    rw [hb2] at h2
    cases r2 with
    | err e => exact h1.trans h2
    | crash e => exact h1.trans h2
    | ok u =>
      simp only
      rcases hids : (if w2.clientset.pClient.Types.has reference then
          parseClusterAndProjectId data w2.referenceMap else Res.ok ([], [])) with ids | e | e
      · obtain ⟨clusterId, projectId⟩ := ids
        simp only
        have h3 := GetClient_extends w2 reference clusterId projectId
        rcases hg : GetClient reference w2.clientset clusterId projectId with ⟨cs, r⟩
        rw [hg] at h3
        cases r with
        | ok client =>
          exact (h1.trans h2).trans (h3.trans (fillInReferenceMap_extends env client reference _))
        | err e => exact (h1.trans h2).trans h3
        | crash e => exact (h1.trans h2).trans h3
      · exact h1.trans h2
      · exact h1.trans h2

theorem replaceReferenceField_extends {D : Type} (env : Env D) (schemaType : Str)
    (f : Str × Field) (data : GoMap Value) (w : World D) :
    Extends w (replaceReferenceField env schemaType f data w).1.2 := by
  unfold replaceReferenceField
  simp only
  split
  · split
    · exact Extends.refl w
    · split
      · exact Extends.refl w
      · have h1 : Extends w (if !w.referenceMap.has (getReference f.2.Typ) then
            fillMissing env (getReference f.2.Typ) data w else (w, Res.ok ())).1 := by
          split
          · exact fillMissing_extends env _ data w
          · exact Extends.refl w
        rcases hb : (if !w.referenceMap.has (getReference f.2.Typ) then
            fillMissing env (getReference f.2.Typ) data w else (w, Res.ok ())) with ⟨w1, r⟩
        rw [hb] at h1
        cases r with
        | err e => exact h1
        | crash e => exact h1
        | ok u =>
          simp only
          split
          · split <;> exact h1
          · split
            · split <;> exact h1
            · split <;> exact h1
  · exact Extends.refl w

theorem replaceReference_extends {D : Type} (env : Env D) (schemaType : Str)
    (fields : List (Str × Field)) (data : GoMap Value) (w : World D) :
    Extends w (replaceReference env schemaType fields data w).1.2 := by
  induction fields generalizing data w with
  | nil => exact Extends.refl w
  | cons f rest ih =>
    unfold replaceReference
    have h1 := replaceReferenceField_extends env schemaType f data w
    rcases hb : replaceReferenceField env schemaType f data w with ⟨⟨d1, w1⟩, r⟩
    rw [hb] at h1
    cases r with
    | ok u => exact h1.trans (ih d1 w1)
    | err e => exact h1
    | crash e => exact h1

theorem resolveRecord_extends {D : Type} (env : Env D) (schemas : GoMap Schema)
    (schemaKey name : Str) (dataMap : GoMap Value) (w : World D) :
    Extends w (resolveRecord env schemas schemaKey name dataMap w).1 := by
  unfold resolveRecord
  simp only
  have h1 := replaceReference_extends env schemaKey
    (env.rangeFields schemaKey name ((schemas.get schemaKey).getD ⟨[]⟩).ResourceFields) dataMap w
  rcases hb : replaceReference env schemaKey
    (env.rangeFields schemaKey name ((schemas.get schemaKey).getD ⟨[]⟩).ResourceFields) dataMap w
    with ⟨⟨d1, w1⟩, r⟩
  rw [hb] at h1
  cases r with
  | err e => exact h1
  | crash e => exact h1
  | ok u =>
    simp only at h1 ⊢
    cases stringField (d1.set (lit "name") (.str name)) (lit "clusterId") with
    | err e => exact h1
    | crash e => exact h1
    | ok clusterId =>
      simp only
      cases stringField (d1.set (lit "name") (.str name)) (lit "projectId") with
      | err e => exact h1
      | crash e => exact h1
      | ok projectId =>
        simp only
        have h2 := GetClient_extends w1 schemaKey clusterId projectId
        rcases hg : GetClient schemaKey w1.clientset clusterId projectId with ⟨cs, r⟩
        rw [hg] at h2
        cases r <;> exact h1.trans h2

theorem awaitReady_extends {D : Type} (env : Env D) (schemaKey : Str)
    (baseClient : Option ClientRef) (id : Str) (w : World D) :
    Extends w (awaitReady env schemaKey baseClient id w).1 := by
  unfold awaitReady
  split
  · have h1 := callWait_extends env baseClient id schemaKey w
    rcases hb : callWait env baseClient id schemaKey w with ⟨w1, r⟩
    rw [hb] at h1
    cases r <;> exact h1
  · exact Extends.refl w

/-! ## Lemmas on the listing of existing instances -/

theorem lastNamed_fold_mem (collections : List Value) (name : Str) (r : Option (GoMap Value))
    (listed : GoMap Value)
    (h : collections.foldl
      (fun r obj =>
        match obj with
        | .obj objMap => if getValue objMap (lit "name") = name then some objMap else r
        | _ => r) r = some listed) :
    r = some listed ∨
      (Value.obj listed ∈ collections ∧ getValue listed (lit "name") = name) := by
  induction collections generalizing r with
  | nil => exact Or.inl h
  | cons obj rest ih =>
    simp only [List.foldl_cons] at h
    rcases ih _ h with h1 | h1
    · cases obj with
      | obj objMap =>
        simp only at h1
        split at h1
        · rename_i hn
          cases h1
          exact Or.inr ⟨List.mem_cons_self _ _, hn⟩
        · exact Or.inl h1
      | _ => exact Or.inl h1
    · exact Or.inr ⟨List.mem_cons_of_mem _ h1.1, h1.2⟩

theorem lastNamed_fold_isSome (collections : List Value) (name : Str)
    (r : Option (GoMap Value))
    (h : r.isSome = true ∨
      ∃ objMap, Value.obj objMap ∈ collections ∧ getValue objMap (lit "name") = name) :
    (collections.foldl
      (fun r obj =>
        match obj with
        | .obj objMap => if getValue objMap (lit "name") = name then some objMap else r
        | _ => r) r).isSome = true := by
  induction collections generalizing r with
  | nil =>
    rcases h with h | ⟨m, hm, _⟩
    · exact h
    · simp at hm
  | cons obj rest ih =>
    simp only [List.foldl_cons]
    apply ih
    rcases h with h | ⟨m, hm, hn⟩
    · left
      cases obj with
      | obj objMap =>
        simp only
        split
        · rfl
        · exact h
      | _ => exact h
    · rcases List.mem_cons.1 hm with hm | hm
      · left
        subst hm
        simp [hn]
      · exact Or.inr ⟨m, hm, hn⟩

theorem existingInstances_fold_get (collections : List Value) (name : Str) (hne : name ≠ [])
    (created : GoMap Str) (r : Option (GoMap Value))
    (h : created.get name = r.map fun m => getValue m (lit "id")) :
    (collections.foldl
      (fun created obj =>
        match obj with
        | .obj objMap =>
          let createdName := getValue objMap (lit "name")
          if createdName ≠ [] then created.set createdName (getValue objMap (lit "id"))
          else created
        | _ => created) created).get name =
      (collections.foldl
        (fun r obj =>
          match obj with
          | .obj objMap => if getValue objMap (lit "name") = name then some objMap else r
          | _ => r) r).map fun m => getValue m (lit "id") := by
  induction collections generalizing created r with
  | nil => exact h
  | cons obj rest ih =>
    simp only [List.foldl_cons]
    apply ih
    cases obj with
    | obj objMap =>
      simp only
      by_cases hn : getValue objMap (lit "name") = name
      · have hne' : getValue objMap (lit "name") ≠ [] := by rw [hn]; exact hne
        simp [hn, hne, GoMap.get_set]
      · by_cases he : getValue objMap (lit "name") = []
        · have hne2 : ¬ ([] : Str) = name := fun e => hne e.symm
          simp [he, hne2, h]
        · simp [hn, he, GoMap.get_set, h]
    | _ => exact h

/-- A non-empty name that some listed instance carries is indexed by
`existingInstances` under the identifier of the last listed instance with that
name. -/
theorem existingInstances_get (respObj : GoMap Value) (collections : List Value) (name : Str)
    (hdata : respObj.get (lit "data") = some (.arr collections)) (hne : name ≠ [])
    (objMap : GoMap Value) (hinst : Value.obj objMap ∈ collections)
    (hname : getValue objMap (lit "name") = name) :
    ∃ listed, lastNamed collections name = some listed ∧ Value.obj listed ∈ collections ∧
      getValue listed (lit "name") = name ∧
      (existingInstances respObj).get name = some (getValue listed (lit "id")) := by
  have hsome := lastNamed_fold_isSome collections name none (Or.inr ⟨objMap, hinst, hname⟩)
  obtain ⟨listed, hl⟩ := Option.isSome_iff_exists.1 hsome
  have hmem := lastNamed_fold_mem collections name none listed hl
  rcases hmem with h | h
  · cases h
  · refine ⟨listed, hl, h.1, h.2, ?_⟩
    unfold existingInstances
    rw [hdata]
    simp only
    rw [existingInstances_fold_get collections name hne [] none (by simp [GoMap.get]), hl]
    rfl

/-! ## Lemmas on the loops of `CreateResourcesWithReferences` -/

theorem processRecords_append {D : Type} (env : Env D) (schemas : GoMap Schema)
    (schemaKey : Str) (pre post : List (Str × Value)) (w0 w : World D)
    (b0 b : Option ClientRef)
    (h : processRecords env schemas schemaKey pre w0 b0 = ((w, b), .ok Flow.next)) :
    processRecords env schemas schemaKey (pre ++ post) w0 b0 =
      processRecords env schemas schemaKey post w b := by
  induction pre generalizing w0 b0 with
  | nil =>
    simp only [processRecords, Prod.mk.injEq, and_true] at h
    obtain ⟨h1, h2⟩ := h
    subst h1 h2
    rfl
  | cons r rest ih =>
    obtain ⟨name, data⟩ := r
    simp only [List.cons_append, processRecords] at h ⊢
    rcases hstep : processRecord env schemas schemaKey name data w0 b0 with ⟨⟨w1, b1⟩, r⟩
    rw [hstep] at h
    cases r with
    | ok fl =>
      cases fl with
      | next => exact ih w1 b1 h
      | stop => simp at h
    | err e => simp at h
    | crash e => simp at h

theorem processKinds_append {D : Type} (env : Env D) (schemas : GoMap Schema)
    (rawMap : GoMap Value) (pre post : List Str) (w0 w : World D)
    (h : processKinds env schemas rawMap pre w0 = (w, .ok ())) :
    processKinds env schemas rawMap (pre ++ post) w0 =
      processKinds env schemas rawMap post w := by
  induction pre generalizing w0 with
  | nil =>
    simp only [processKinds, Prod.mk.injEq, and_true] at h
    subst h
    rfl
  | cons k rest ih =>
    simp only [List.cons_append, processKinds] at h ⊢
    rcases hstep : processKind env schemas rawMap k w0 with ⟨w1, r⟩
    rw [hstep] at h
    cases r with
    | ok u => exact ih w1 h
    | err e => simp at h
    | crash e => simp at h

theorem callCreate_err {D : Type} (env : Env D) (baseClient : Option ClientRef)
    (schemaKey : Str) (data : GoMap Value) (w w' : World D) (e : Str)
    (h : callCreate env baseClient schemaKey data w = (w', .err e)) :
    ∃ cl, baseClient = some cl ∧
      w'.trace = w.trace ++ [Call.create cl (w.clientset.client cl).URL schemaKey data] := by
  unfold callCreate at h
  cases baseClient with
  | none => simp at h
  | some cl =>
    refine ⟨cl, rfl, ?_⟩
    simp only at h
    split at h
    · simp at h
    · simp only [Prod.mk.injEq] at h
      rw [← h.1]

theorem SortSchema_exClientSet :
    SortSchema exEnv.rangeSchemas (GetSchemaMap exClientSet) =
      [lit "cluster", lit "project", lit "secret", lit "app", lit "namespace"] := by
  show SortSchema iterId (GetSchemaMap exClientSet) = _
  rw [SortSchema_of_fixed iterId (GetSchemaMap exClientSet) 1 (by decide) (fun _ _ =>
    (by decide : sortPass (sortPasses iterId (GetSchemaMap exClientSet) 1)
      (GetSchemaMap exClientSet) = _))]
  decide

theorem CreateResourcesWithReferences_exClientSet (rawMap : GoMap Value) (dir : List Inst) :
    CreateResourcesWithReferences exEnv exClientSet rawMap dir =
      processKinds exEnv (GetSchemaMap exClientSet) (rawMap.delete (lit "version"))
        [lit "cluster", lit "project", lit "secret", lit "app", lit "namespace"]
        (initWorld exClientSet dir) := by
  unfold CreateResourcesWithReferences
  simp only [SortSchema_exClientSet]
  rfl

/-! ## C8: reuse of a listed instance -/

/-- C8, amended: for a kind of the management catalog, when the record has been
resolved and the directory returns a listing that contains an instance whose
name is the record's name, and that name is not empty, the loop body of
`CreateResourcesWithReferences` issues no `Create` call for the record and
uses the identifier of the (last) listed instance with that name as the
record's identifier, the one passed to the readiness wait. -/
theorem processRecord_reuses_listed_instance {D : Type} (env : Env D)
    (schemas : GoMap Schema) (schemaKey name : Str) (dataMap : GoMap Value) (w : World D)
    (bClient : Option ClientRef) (dataMap2 : GoMap Value) (baseClient : Option ClientRef)
    (w2 w3 : World D) (respObj : GoMap Value) (collections : List Value)
    (objMap : GoMap Value)
    (hres : resolveRecord env schemas schemaKey name dataMap w = (w2, .ok (dataMap2, baseClient)))
    (hm : w.clientset.mClient.Types.has schemaKey = true)
    (hlist : callList env baseClient schemaKey w2 = (w3, .ok respObj))
    (hdata : respObj.get (lit "data") = some (.arr collections))
    (hinst : Value.obj objMap ∈ collections)
    (hname : objMap.get (lit "name") = some (.str name))
    (hne : name ≠ []) :
    ∃ listed, lastNamed collections name = some listed ∧ Value.obj listed ∈ collections ∧
      getValue listed (lit "name") = name ∧
      processRecord env schemas schemaKey name (.obj dataMap) w bClient =
        (((awaitReady env schemaKey baseClient (getValue listed (lit "id")) w3).1, baseClient),
          (awaitReady env schemaKey baseClient (getValue listed (lit "id")) w3).2) ∧
      Extends w (processRecord env schemas schemaKey name (.obj dataMap) w bClient).1.1 := by
  have hgv : getValue objMap (lit "name") = name := by simp [getValue, hname]
  obtain ⟨listed, hl, hmem, hln, hget⟩ :=
    existingInstances_get respObj collections name hdata hne objMap hinst hgv
  have he2 : Extends w w2 := by
    have := resolveRecord_extends env schemas schemaKey name dataMap w
    rw [hres] at this
    exact this
  have he3 : Extends w2 w3 := by
    have := callList_extends env baseClient schemaKey w2
    rw [hlist] at this
    exact this
  have hm2 : w2.clientset.mClient.Types.has schemaKey = true := by
    rw [he2.mTypes]; exact hm
  have hle : listExisting env schemaKey baseClient w2 = (w3, .ok (existingInstances respObj)) := by
    unfold listExisting
    simp [hm2, hlist]
  have hproc : processRecord env schemas schemaKey name (.obj dataMap) w bClient =
      (((awaitReady env schemaKey baseClient (getValue listed (lit "id")) w3).1, baseClient),
        (awaitReady env schemaKey baseClient (getValue listed (lit "id")) w3).2) := by
    unfold processRecord
    simp only [hres, hle, createOrReuse, hget]
  refine ⟨listed, hl, hmem, hln, hproc, ?_⟩
  rw [hproc]
  exact (he2.trans he3).trans (awaitReady_extends env schemaKey baseClient _ w3)

/-- Witness of the amended C8: the cluster `demo` of the document is listed by
the directory with the identifier `c-1`. -/
theorem processRecord_reuses_listed_instance_witness :
    ∃ listed, lastNamed exListingDemo (lit "demo") = some listed ∧
      Value.obj listed ∈ exListingDemo ∧ getValue listed (lit "name") = lit "demo" ∧
      processRecord exEnv (GetSchemaMap exClientSet) (lit "cluster") (lit "demo") (.obj [])
          (initWorld exClientSet exDirDemo) none =
        (((awaitReady exEnv (lit "cluster") (some ClientRef.mgmt)
            (getValue listed (lit "id")) exWorldListed).1, some ClientRef.mgmt),
          (awaitReady exEnv (lit "cluster") (some ClientRef.mgmt)
            (getValue listed (lit "id")) exWorldListed).2) ∧
      Extends (initWorld exClientSet exDirDemo)
        (processRecord exEnv (GetSchemaMap exClientSet) (lit "cluster") (lit "demo") (.obj [])
          (initWorld exClientSet exDirDemo) none).1.1 :=
  processRecord_reuses_listed_instance exEnv (GetSchemaMap exClientSet) (lit "cluster")
    (lit "demo") [] (initWorld exClientSet exDirDemo) none [(lit "name", .str (lit "demo"))]
    (some ClientRef.mgmt) (initWorld exClientSet exDirDemo) exWorldListed
    [(lit "data", .arr exListingDemo)] exListingDemo
    [(lit "id", .str (lit "c-1")), (lit "name", .str (lit "demo"))]
    (by decide) (by decide) (by decide) (by decide) (by decide) (by decide) (by decide)

/-- C8 as stated fails for the empty name: the kind `cluster` is in the
management catalog, the record's name (the document key) is the empty string
and the directory lists a cluster whose name is the empty string, yet
`CreateResourcesWithReferences` issues a `Create` call for the record. -/
theorem CreateResourcesWithReferences_creates_unnamed :
    exClientSet.mClient.Types.has (lit "cluster") = true ∧
    exDocumentUnnamed.get (lit "clusters") = some (.obj [([], .obj [])]) ∧
    (callList exEnv (some ClientRef.mgmt) (lit "cluster")
        (initWorld exClientSet exDirUnnamed)).2 =
      .ok [(lit "data", .arr [.obj [(lit "id", .str (lit "c-x")), (lit "name", .str [])]])] ∧
    (CreateResourcesWithReferences exEnv exClientSet exDocumentUnnamed exDirUnnamed).1.trace =
      [ Call.list ClientRef.mgmt (lit "https://localhost:8443/v3") (lit "cluster"),
        Call.create ClientRef.mgmt (lit "https://localhost:8443/v3") (lit "cluster")
          [(lit "name", .str [])],
        Call.list ClientRef.mgmt (lit "https://localhost:8443/v3") (lit "cluster") ] := by
  rw [CreateResourcesWithReferences_exClientSet]
  decide

/-! ## C9: a `Create` call that fails -/

/-- C9: in a run of `CreateResourcesWithReferences` that reaches a record
(after the kinds `earlier` and the records `pre` of its kind), finds no listed
instance with its name and issues a `Create` call that fails with the error
`e`: if the message of `e` contains `already exist`, the loop over the records
of the kind ends right after that call without an error (no readiness wait for
the record, no call at all for the remaining records `rest`), and the run goes
on with the cache of the kind and the kinds `later`; otherwise the run returns
`e` at once, in the state reached by the failed call. -/
theorem CreateResourcesWithReferences_create_error {D : Type} (env : Env D)
    (clientset : ClientSet) (rawMap : GoMap Value) (dir : D)
    (earlier later : List Str) (schemaKey : Str) (pre rest : List (Str × Value))
    (name : Str) (dataMap : GoMap Value) (w0 w : World D) (bClient : Option ClientRef)
    (dataMap2 : GoMap Value) (baseClient : Option ClientRef) (w2 w3 w4 : World D)
    (created : GoMap Str) (e : Str)
    (hsorted : SortSchema env.rangeSchemas (GetSchemaMap clientset) =
      earlier ++ schemaKey :: later)
    (hearlier : processKinds env (GetSchemaMap clientset) (rawMap.delete (lit "version"))
      earlier (initWorld clientset dir) = (w0, .ok ()))
    (hraw : (rawMap.delete (lit "version")).get (schemaKey ++ lit "s") =
      some (.obj (pre ++ (name, .obj dataMap) :: rest)))
    (hpre : processRecords env (GetSchemaMap clientset) schemaKey pre w0 none =
      ((w, bClient), .ok Flow.next))
    (hres : resolveRecord env (GetSchemaMap clientset) schemaKey name dataMap w =
      (w2, .ok (dataMap2, baseClient)))
    (hlist : listExisting env schemaKey baseClient w2 = (w3, .ok created))
    (hmiss : created.get name = none)
    (hcreate : callCreate env baseClient schemaKey dataMap2 w3 = (w4, .err e)) :
    (∃ cl, baseClient = some cl ∧
      w4.trace = w3.trace ++ [Call.create cl (w3.clientset.client cl).URL schemaKey dataMap2]) ∧
    (Contains e (lit "already exist") = true →
      processRecords env (GetSchemaMap clientset) schemaKey
          (pre ++ (name, .obj dataMap) :: rest) w0 none =
        ((w4, baseClient), .ok Flow.stop) ∧
      CreateResourcesWithReferences env clientset rawMap dir =
        match fillInReferenceMap env baseClient schemaKey w4 with
        | (w5, .ok _) =>
          processKinds env (GetSchemaMap clientset) (rawMap.delete (lit "version")) later w5
        | (w5, .err e') => (w5, .err e')
        | (w5, .crash e') => (w5, .crash e')) ∧
    (Contains e (lit "already exist") = false →
      CreateResourcesWithReferences env clientset rawMap dir = (w4, .err e)) := by
  have hcl := callCreate_err env baseClient schemaKey dataMap2 w3 w4 e hcreate
  have hrun : CreateResourcesWithReferences env clientset rawMap dir =
      processKinds env (GetSchemaMap clientset) (rawMap.delete (lit "version"))
        (schemaKey :: later) w0 := by
    unfold CreateResourcesWithReferences
    simp only [hsorted]
    exact processKinds_append env _ _ earlier (schemaKey :: later) _ w0 hearlier
  have hrecs : processRecords env (GetSchemaMap clientset) schemaKey
      (pre ++ (name, .obj dataMap) :: rest) w0 none =
      processRecords env (GetSchemaMap clientset) schemaKey ((name, .obj dataMap) :: rest)
        w bClient :=
    processRecords_append env _ schemaKey pre _ w0 w none bClient hpre
  have hrec : processRecord env (GetSchemaMap clientset) schemaKey name (.obj dataMap) w
      bClient =
      ((w4, baseClient), if Contains e (lit "already exist") then .ok Flow.stop else .err e) := by
    unfold processRecord
    simp only [hres, hlist, createOrReuse, hmiss, hcreate]
    split <;> rfl
  refine ⟨hcl, ?_, ?_⟩
  · intro hex
    have h1 : processRecords env (GetSchemaMap clientset) schemaKey
        (pre ++ (name, .obj dataMap) :: rest) w0 none = ((w4, baseClient), .ok Flow.stop) := by
      rw [hrecs]
      simp only [processRecords, hrec, hex, if_true]
    refine ⟨h1, ?_⟩
    rw [hrun]
    obtain ⟨cl, hb, _⟩ := hcl
    subst hb
    simp only [processKinds, processKind, hraw, h1]
  · intro hex
    have h1 : processRecords env (GetSchemaMap clientset) schemaKey
        (pre ++ (name, .obj dataMap) :: rest) w0 none = ((w4, baseClient), .err e) := by
      rw [hrecs]
      simp only [processRecords, hrec, hex]
      rfl
    rw [hrun]
    simp only [processKinds, processKind, hraw, h1]

/-- Witness of C9: the secret `s1` is already in the directory, which is not
listed for a kind outside the management catalog; its `Create` call is refused
with `secret s1 already exists`, the record of `s2` is not processed, and the
run goes on with the cache of `secret`. -/
theorem CreateResourcesWithReferences_create_error_witness :
    (∃ cl, some ClientRef.project = some cl ∧
      exWorldRefused.trace = exWorldResolved.trace ++
        [Call.create cl (exWorldResolved.clientset.client cl).URL (lit "secret")
          exSecretSubmitted]) ∧
    (Contains (lit "secret s1 already exists") (lit "already exist") = true →
      processRecords exEnv (GetSchemaMap exClientSet) (lit "secret")
          ([] ++ (lit "s1", .obj [(lit "projectId", .str (lit "demo:p1"))]) ::
            [(lit "s2", .obj [(lit "projectId", .str (lit "demo:p1"))])])
          (initWorld exClientSet exDirSecret) none =
        ((exWorldRefused, some ClientRef.project), .ok Flow.stop) ∧
      CreateResourcesWithReferences exEnv exClientSet exDocumentSecrets exDirSecret =
        match fillInReferenceMap exEnv (some ClientRef.project) (lit "secret")
          exWorldRefused with
        | (w5, .ok _) =>
          processKinds exEnv (GetSchemaMap exClientSet)
            (exDocumentSecrets.delete (lit "version")) [lit "app", lit "namespace"] w5
        | (w5, .err e') => (w5, .err e')
        | (w5, .crash e') => (w5, .crash e')) ∧
    (Contains (lit "secret s1 already exists") (lit "already exist") = false →
      CreateResourcesWithReferences exEnv exClientSet exDocumentSecrets exDirSecret =
        (exWorldRefused, .err (lit "secret s1 already exists"))) :=
  CreateResourcesWithReferences_create_error exEnv exClientSet exDocumentSecrets exDirSecret
    [lit "cluster", lit "project"] [lit "app", lit "namespace"] (lit "secret") []
    [(lit "s2", .obj [(lit "projectId", .str (lit "demo:p1"))])] (lit "s1")
    [(lit "projectId", .str (lit "demo:p1"))] (initWorld exClientSet exDirSecret)
    (initWorld exClientSet exDirSecret) none exSecretSubmitted (some ClientRef.project)
    exWorldResolved exWorldResolved exWorldRefused [] (lit "secret s1 already exists")
    SortSchema_exClientSet (by decide) (by decide) (by decide) (by decide) (by decide)
    (by decide) (by decide)

/-! ## C10: the base URL of a scoped client -/

/-- C10 at a failing input: the document `exDocument` has one secret in each
of the projects `p1` and `p2`.  The run selects the project-scoped client for
both records, under two different project identifiers, and the second
selection appends its segment to the URL the first one left: the second
`Create` call is made on `.../projects/c-demo:p-p1/c-demo:p-p2`, not on the
configured base URL followed by the single segment `/c-demo:p-p2`. -/
theorem CreateResourcesWithReferences_scoped_url_accumulates :
    exClientSet.pClient.URL = lit "https://localhost:8443/v3/projects" ∧
    (GetClient (lit "secret") exClientSet (lit "c-demo") (lit "c-demo:p-p1")).2 =
      .ok (some ClientRef.project) ∧
    (GetClient (lit "secret")
      (GetClient (lit "secret") exClientSet (lit "c-demo") (lit "c-demo:p-p1")).1
      (lit "c-demo") (lit "c-demo:p-p2")).1.pClient.URL =
      lit "https://localhost:8443/v3/projects/c-demo:p-p1/c-demo:p-p2" ∧
    (CreateResourcesWithReferences exEnv exClientSet exDocument []).2 = .ok () ∧
    createURLs (CreateResourcesWithReferences exEnv exClientSet exDocument []).1.trace
        (lit "secret") =
      [ lit "https://localhost:8443/v3/projects/c-demo:p-p1",
        lit "https://localhost:8443/v3/projects/c-demo:p-p1/c-demo:p-p2" ] ∧
    (CreateResourcesWithReferences exEnv exClientSet exDocument []).1.clientset.pClient.URL =
      lit "https://localhost:8443/v3/projects/c-demo:p-p1/c-demo:p-p2" := by
  rw [CreateResourcesWithReferences_exClientSet]
  decide

/-! ## Frame lemmas for `replaceReference` -/

theorem keepsCaches_of_eq {D : Type} {w w' : World D}
    (h : w'.referenceMap = w.referenceMap) : KeepsCaches w w' :=
  fun _ _ hk => by rw [h]; exact hk

end Composinator
